import Mathlib

/-!
# A verification development for the spreet spritesheet assembly engine

This file gives a shallow embedding, in Lean 4, of the core of the `spreet`
program (`src/sprite/mod.rs`, `src/sprite/serialize.rs` and the builder
pipeline), together with theorems checking the natural-language specification
against that embedding.

Modelling conventions:
* Rust `f32` coordinate values are embedded as exact rationals (`ℚ`);
  `f32::fract() == 0.0` becomes `Rat.den = 1`, and `f32::round` (round half
  away from zero) becomes `roundAway`.
* Machine integers are embedded as `Nat`/`Int`; the saturating float-to-int
  casts `as u32` / `as i32` become explicit clamps.
* External collaborators (the PNG codec, the SVG rasteriser, the `crunch`
  rectangle packer and the `sdf_glyph_renderer` kernel) are not part of the
  repository's sources; where a claim depends on them they are modelled from
  the specification, and each such definition is marked
  `Modelled from the spec:` in its doc comment.
-/

namespace Spreet

/-! ## Pixels and bitmaps (tiny_skia model) -/

/-- A premultiplied RGBA pixel, one byte per channel (tiny_skia `PremultipliedColorU8`). -/
structure ColorU8 where
  r : Nat
  g : Nat
  b : Nat
  a : Nat
deriving DecidableEq

/-- A bitmap: width, height and row-major pixels (tiny_skia `Pixmap`). -/
structure Pixmap where
  width : Nat
  height : Nat
  pixels : List ColorU8
deriving DecidableEq

/-- `Pixmap::new` fails on zero dimensions, otherwise allocates a fully
transparent bitmap. -/
def Pixmap.new (w h : Nat) : Option Pixmap :=
  if w = 0 ∨ h = 0 then none
  else some ⟨w, h, List.replicate (w * h) ⟨0, 0, 0, 0⟩⟩

/-! ## Geometry: usvg rectangles with rational (f32) coordinates -/

/-- A usvg `Rect`: left/top/right/bottom coordinates. -/
structure Rect where
  left : ℚ
  top : ℚ
  right : ℚ
  bottom : ℚ
deriving DecidableEq

/-- `Rect::from_ltrb` rejects rectangles with negative extent. -/
def Rect.from_ltrb (l t r b : ℚ) : Option Rect :=
  if l ≤ r ∧ t ≤ b then some ⟨l, t, r, b⟩ else none

/-! ## Numeric serialization (`src/sprite/serialize.rs`) -/

/-- Rust `f32::round`: round half away from zero. -/
def roundAway (q : ℚ) : ℤ :=
  if 0 ≤ q then ⌊q + 1 / 2⌋ else ⌈q - 1 / 2⌉

/-- Rust's saturating float-to-`u32` cast, applied to an already rounded value. -/
def u32Sat (n : ℤ) : ℤ := max 0 (min n 4294967295)

/-- Rust's saturating float-to-`i32` cast, applied to an already rounded value. -/
def i32Sat (n : ℤ) : ℤ := max (-2147483648) (min n 2147483647)

/-- `serialize.rs` `Number`: a JSON number, either integer or floating point. -/
inductive Number where
  | int : ℤ → Number
  | float : ℚ → Number
deriving DecidableEq

/-- `(num * 1e3).round() / 1e3`: round to three decimal places. -/
def round3 (q : ℚ) : ℚ := (roundAway (q * 1000) : ℚ) / 1000

/-- `serialize.rs` `icon_number`: an `f32` with zero fractional part serialises
as a `u32`, otherwise as an `f32` rounded to three decimal places. -/
def icon_number (num : ℚ) : Number :=
  if num.den = 1 then Number.int (u32Sat (roundAway num))
  else Number.float (round3 num)

/-- The per-coordinate number logic inlined in `serialize.rs` `serialize_rect`:
an `f32` with zero fractional part serialises as an `i32`, otherwise as an
`f32` rounded to three decimal places. -/
def rectNumber (num : ℚ) : Number :=
  if num.den = 1 then Number.int (i32Sat (roundAway num))
  else Number.float (round3 num)

/-- `serialize.rs` `serialize_rect`: content area as `[left, top, right, bottom]`. -/
def serialize_rect (r : Rect) : List Number :=
  [rectNumber r.left, rectNumber r.top, rectNumber r.right, rectNumber r.bottom]

/-- `serialize.rs` `serialize_stretch_x_area`: left and right edge of each rect. -/
def serialize_stretch_x_area (rects : List Rect) : List (List Number) :=
  rects.map fun r => [icon_number r.left, icon_number r.right]

/-- `serialize.rs` `serialize_stretch_y_area`: top and bottom edge of each rect. -/
def serialize_stretch_y_area (rects : List Rect) : List (List Number) :=
  rects.map fun r => [icon_number r.top, icon_number r.bottom]

/-! ### Facts about rounding -/

theorem floor_half : ⌊(1 / 2 : ℚ)⌋ = 0 := by
  rw [Int.floor_eq_zero_iff]
  constructor <;> norm_num

theorem ceil_neg_half : ⌈(0 - 1 / 2 : ℚ)⌉ = 0 := by
  rw [Int.ceil_eq_iff]
  constructor <;> norm_num

theorem num_cast_of_den_one {q : ℚ} (h : q.den = 1) : (q.num : ℚ) = q := by
  have := Rat.num_div_den q
  rw [h] at this
  simpa using this

theorem roundAway_intCast (n : ℤ) : roundAway (n : ℚ) = n := by
  unfold roundAway
  by_cases hn : 0 ≤ (n : ℚ)
  · rw [if_pos hn, add_comm, Int.floor_add_int, floor_half, zero_add]
  · rw [if_neg hn]
    have : ((n : ℚ) - 1 / 2) = (0 - 1 / 2) + n := by ring
    rw [this, Int.ceil_add_int, ceil_neg_half, zero_add]

theorem roundAway_den_one {q : ℚ} (h : q.den = 1) : roundAway q = q.num := by
  conv_lhs => rw [← num_cast_of_den_one h]
  exact roundAway_intCast q.num

theorem roundAway_abs_le (q : ℚ) : |((roundAway q : ℤ) : ℚ) - q| ≤ 1 / 2 := by
  unfold roundAway
  by_cases hq : 0 ≤ q
  · rw [if_pos hq]
    have h1 : ((⌊q + 1 / 2⌋ : ℤ) : ℚ) ≤ q + 1 / 2 := Int.floor_le _
    have h2 : q + 1 / 2 < (⌊q + 1 / 2⌋ : ℤ) + 1 := Int.lt_floor_add_one _
    rw [abs_le]
    constructor <;> linarith
  · rw [if_neg hq]
    have h1 : q - 1 / 2 ≤ ((⌈q - 1 / 2⌉ : ℤ) : ℚ) := Int.le_ceil _
    have h2 : ((⌈q - 1 / 2⌉ : ℤ) : ℚ) < (q - 1 / 2) + 1 := Int.ceil_lt_add_one _
    rw [abs_le]
    constructor <;> linarith

theorem round3_abs_le (q : ℚ) : |round3 q - q| ≤ 1 / 2000 := by
  have h := roundAway_abs_le (q * 1000)
  rw [abs_le] at h
  unfold round3
  rw [abs_le]
  constructor <;> [linarith; linarith]

theorem round3_mul_den (q : ℚ) : (round3 q * 1000).den = 1 := by
  unfold round3
  rw [div_mul_cancel₀ _ (by norm_num : (1000 : ℚ) ≠ 0)]
  exact Rat.den_intCast _

/-- C3: For every content-area and stretch-area coordinate value serialized
into the index, a value with zero fractional part is emitted as a JSON integer
(the saturating cast of its integer value, and for in-range values the value
itself), and otherwise it is emitted as a real number equal to the value
rounded to 3 decimal places (a multiple of 1/1000 within 1/2000 of the value);
this holds both for the stretch-area serializer (`icon_number`) and for the
content-rect serializer (`rectNumber`, inlined in `serialize_rect`). -/
theorem icon_number_formatting (q : ℚ) :
    (q.den = 1 →
      icon_number q = Number.int (u32Sat q.num) ∧
      rectNumber q = Number.int (i32Sat q.num) ∧
      (0 ≤ q.num → q.num < 4294967296 → icon_number q = Number.int q.num) ∧
      (-2147483648 ≤ q.num → q.num < 2147483648 → rectNumber q = Number.int q.num)) ∧
    (q.den ≠ 1 →
      icon_number q = Number.float (round3 q) ∧
      rectNumber q = Number.float (round3 q) ∧
      (round3 q * 1000).den = 1 ∧
      |round3 q - q| ≤ 1 / 2000) := by
  constructor
  · intro hden
    have hr : roundAway q = q.num := roundAway_den_one hden
    refine ⟨by rw [icon_number, if_pos hden, hr], by rw [rectNumber, if_pos hden, hr], ?_, ?_⟩
    · intro h0 h1
      rw [icon_number, if_pos hden, hr]
      have : u32Sat q.num = q.num := by
        unfold u32Sat
        rw [min_eq_left (by omega), max_eq_right h0]
      rw [this]
    · intro h0 h1
      rw [rectNumber, if_pos hden, hr]
      have : i32Sat q.num = q.num := by
        unfold i32Sat
        rw [min_eq_left (by omega), max_eq_right h0]
      rw [this]
  · intro hden
    refine ⟨by rw [icon_number, if_neg hden], by rw [rectNumber, if_neg hden],
      round3_mul_den q, round3_abs_le q⟩

/-- Witness for C3: `5.0` serializes as the integer `5` in both serializers,
and `16/3 = 5.333…` serializes as the real number `5.333` in both. -/
theorem icon_number_formatting_witness :
    icon_number 5 = Number.int (5 : ℚ).num ∧
    rectNumber 5 = Number.int (5 : ℚ).num ∧
    icon_number (16 / 3) = Number.float (round3 (16 / 3)) ∧
    round3 (16 / 3 : ℚ) = 5333 / 1000 := by
  have hden : (16 / 3 : ℚ).den ≠ 1 := by
    intro h
    have h2 := num_cast_of_den_one h
    have h3 : ((16 / 3 : ℚ).num : ℚ) * 3 = 16 := by rw [h2]; norm_num
    have h4 : (16 / 3 : ℚ).num * 3 = 16 := by exact_mod_cast h3
    omega
  have hfloor : roundAway (16 / 3 * 1000 : ℚ) = 5333 := by
    rw [roundAway, if_pos (by norm_num)]
    rw [Int.floor_eq_iff]
    constructor <;> norm_num
  have hround : round3 (16 / 3 : ℚ) = 5333 / 1000 := by
    rw [round3, hfloor]; norm_num
  have h5 := (icon_number_formatting 5).1 (by decide)
  have h3 := (icon_number_formatting (16 / 3)).2 hden
  exact ⟨h5.2.2.1 (by decide) (by decide), h5.2.2.2 (by decide) (by decide),
    h3.1, hround⟩

/-- C10: a negative stretch-area coordinate with zero fractional part is
emitted as the integer `0` by the stretch serializers (cast to `u32`,
saturating at zero), while the content-rect serializer emits the same negative
integer unchanged (cast to `i32`), so the two emitted numbers differ: stretch
coordinates round-trip faithfully only when non-negative. -/
theorem stretch_negative_saturates (q : ℚ)
    (hneg : q < 0) (hden : q.den = 1) (hrange : -2147483648 ≤ q.num) :
    icon_number q = Number.int 0 ∧
    rectNumber q = Number.int q.num ∧
    icon_number q ≠ rectNumber q := by
  have hnum : q.num < 0 := by
    by_contra h
    exact absurd ((Rat.num_nonneg).mp (by omega)) (not_le.mpr hneg)
  have hr : roundAway q = q.num := roundAway_den_one hden
  have h1 : icon_number q = Number.int 0 := by
    rw [icon_number, if_pos hden, hr]
    have : u32Sat q.num = 0 := by
      unfold u32Sat
      rw [min_eq_left (by omega), max_eq_left (by omega)]
    rw [this]
  have h2 : rectNumber q = Number.int q.num := by
    rw [rectNumber, if_pos hden, hr]
    have : i32Sat q.num = q.num := by
      unfold i32Sat
      rw [min_eq_left (by omega), max_eq_right (by omega)]
    rw [this]
  refine ⟨h1, h2, ?_⟩
  rw [h1, h2]
  intro hcontra
  injection hcontra with h
  omega

/-- Witness for C10 at the value `-2`. -/
theorem stretch_negative_saturates_witness :
    icon_number (-2) = Number.int 0 ∧
    rectNumber (-2) = Number.int ((-2 : ℚ).num) ∧
    icon_number (-2) ≠ rectNumber (-2) :=
  stretch_negative_saturates (-2) (by decide) (by decide) (by decide)

/-! ## Keyed containers

`BTreeMap`, `MultiMap` and usvg's id lookup are modelled by association lists;
only lookup semantics (and, for `BTreeMap` iteration, the list order) are
observable in the embedded code. -/

/-- Association-list lookup (first entry with the given key). -/
def lookupKey {κ β : Type} [DecidableEq κ] (k : κ) : List (κ × β) → Option β
  | [] => none
  | (k', v) :: rest => if k = k' then some v else lookupKey k rest

theorem lookupKey_mem_keys {κ β : Type} [DecidableEq κ] {k : κ} {v : β} :
    ∀ {l : List (κ × β)}, lookupKey k l = some v → k ∈ l.map Prod.fst
  | [], h => by simp [lookupKey] at h
  | (k', v') :: rest, h => by
    rw [lookupKey] at h
    by_cases hk : k = k'
    · simp [hk]
    · rw [if_neg hk] at h
      simpa using Or.inr (lookupKey_mem_keys h)

theorem lookupKey_cons_ne {κ β : Type} [DecidableEq κ] {k k' : κ} {v' : β}
    {l : List (κ × β)} (h : k ≠ k') : lookupKey k ((k', v') :: l) = lookupKey k l := by
  rw [lookupKey, if_neg h]

/-! ## Decimal rendering of loop indices

Rust's `format!("mapbox-stretch-x-{i}")` renders `i` in decimal. The digit
recursion is written with explicit fuel so that it evaluates by kernel
reduction. -/

def natReprGo : Nat → Nat → List Char
  | _, 0 => []
  | n, fuel + 1 =>
    if n = 0 then [] else natReprGo (n / 10) fuel ++ [Char.ofNat (48 + n % 10)]

/-- Decimal rendering of a natural number, as in Rust's `format!`. -/
def natRepr (n : Nat) : String :=
  if n = 0 then "0" else ⟨natReprGo n n⟩

theorem natReprGo_eq_digits :
    ∀ (fuel n : Nat), n ≤ fuel →
      natReprGo n fuel = ((Nat.digits 10 n).map fun d => Char.ofNat (48 + d)).reverse
  | 0, n, h => by
    have : n = 0 := Nat.le_zero.mp h
    subst this
    simp [natReprGo]
  | fuel + 1, n, h => by
    by_cases hn : n = 0
    · subst hn
      simp [natReprGo]
    · rw [natReprGo, if_neg hn]
      have hpos : 0 < n := Nat.pos_of_ne_zero hn
      rw [Nat.digits_def' (by norm_num : (1:ℕ) < 10) hpos]
      have hdiv : n / 10 ≤ fuel := by
        have := Nat.div_lt_self hpos (by norm_num : 1 < 10)
        omega
      rw [natReprGo_eq_digits fuel (n / 10) hdiv]
      simp

theorem charOfDigit_inj : ∀ a b : Fin 10,
    Char.ofNat (48 + a.val) = Char.ofNat (48 + b.val) → a = b := by decide

theorem map_charOfDigit_inj :
    ∀ {l₁ l₂ : List Nat}, (∀ d ∈ l₁, d < 10) → (∀ d ∈ l₂, d < 10) →
      (l₁.map fun d => Char.ofNat (48 + d)) = (l₂.map fun d => Char.ofNat (48 + d)) →
      l₁ = l₂
  | [], [], _, _, _ => rfl
  | [], _ :: _, _, _, h => by simp at h
  | _ :: _, [], _, _, h => by simp at h
  | a :: l₁, b :: l₂, h₁, h₂, h => by
    simp only [List.map_cons, List.cons.injEq] at h
    have ha : a < 10 := h₁ a (by simp)
    have hb : b < 10 := h₂ b (by simp)
    have hab : a = b := by
      have := charOfDigit_inj ⟨a, ha⟩ ⟨b, hb⟩ h.1
      simpa using congrArg Fin.val this
    have htail := map_charOfDigit_inj (fun d hd => h₁ d (by simp [hd]))
      (fun d hd => h₂ d (by simp [hd])) h.2
    rw [hab, htail]

theorem natRepr_pos_inj {m n : Nat} (hm : 0 < m) (hn : 0 < n)
    (h : natRepr m = natRepr n) : m = n := by
  rw [natRepr, natRepr, if_neg (Nat.pos_iff_ne_zero.mp hm),
    if_neg (Nat.pos_iff_ne_zero.mp hn)] at h
  have hdata : natReprGo m m = natReprGo n n := by
    have := congrArg String.data h
    simpa using this
  rw [natReprGo_eq_digits m m le_rfl, natReprGo_eq_digits n n le_rfl] at hdata
  have hrev := List.reverse_injective hdata
  have hdig := map_charOfDigit_inj
    (fun d hd => Nat.digits_lt_base (by norm_num) hd)
    (fun d hd => Nat.digits_lt_base (by norm_num) hd) hrev
  have := congrArg (Nat.ofDigits 10) hdig
  rwa [Nat.ofDigits_digits, Nat.ofDigits_digits] at this

theorem numberedId_inj {pre : String} {i j : Nat} (hi : 0 < i) (hj : 0 < j)
    (h : pre ++ natRepr i = pre ++ natRepr j) : i = j := by
  have hdata := congrArg String.data h
  rw [String.data_append, String.data_append] at hdata
  have := List.append_cancel_left hdata
  have hrepr : natRepr i = natRepr j := by
    cases hrel : natRepr i with
    | mk d₁ =>
      cases hrel' : natRepr j with
      | mk d₂ =>
        rw [hrel, hrel'] at this
        simp only at this
        rw [this]
  exact natRepr_pos_inj hi hj hrepr

/-! ## The SVG tree and sprite metadata (`src/sprite/mod.rs`) -/

/-- A parsed SVG tree, reduced to what the core reads from it: the map from
node id to the node's absolute bounding box (usvg's `node_by_id` followed by
`abs_bounding_box`). Ids that are absent, or whose nodes have no renderable
geometry, simply have no entry. -/
structure Tree where
  nodes : List (String × Rect)
deriving DecidableEq

/-- `Sprite`: parsed SVG source, pixel ratio and the rasterised bitmap. -/
structure Sprite where
  tree : Tree
  pixel_ratio : Nat
  pixmap : Pixmap
deriving DecidableEq

/-- `Sprite::get_node_bbox`: bounding box of the node with the given id,
scaled by the sprite's pixel ratio. -/
def Sprite.get_node_bbox (s : Sprite) (sid : String) : Option Rect :=
  match lookupKey sid s.tree.nodes with
  | none => none
  | some bbox =>
    Rect.from_ltrb (bbox.left * (s.pixel_ratio : ℚ)) (bbox.top * (s.pixel_ratio : ℚ))
      (bbox.right * (s.pixel_ratio : ℚ)) (bbox.bottom * (s.pixel_ratio : ℚ))

/-- `Sprite::content_area`: bounding box of the node with id `mapbox-content`. -/
def Sprite.content_area (s : Sprite) : Option Rect :=
  s.get_node_bbox "mapbox-content"

/-- The `for i in 1.. { … }` loops of `stretch_x_areas`/`stretch_y_areas`:
look up `{pre}{i}`, `{pre}{i+1}`, … collecting bounding boxes, and stop at the
first missing index. The loop is written with fuel; `scanFuel` below always
suffices, because the tree has finitely many ids. -/
def Sprite.stretchScan (s : Sprite) (pre : String) : Nat → Nat → List Rect
  | 0, _ => []
  | fuel + 1, i =>
    match s.get_node_bbox (pre ++ natRepr i) with
    | some r => r :: s.stretchScan pre fuel (i + 1)
    | none => []

/-- Enough fuel for `stretchScan`: one more than the number of ids in the tree. -/
def scanFuel (s : Sprite) : Nat := s.tree.nodes.length + 1

/-- The axis-specific values collected by `Sprite::stretch_x_areas` before the
`mapbox-stretch` fallback is considered: the bounding box of
`mapbox-stretch-x`, if any, followed by the numbered `mapbox-stretch-x-1`,
`mapbox-stretch-x-2`, … scan. -/
def Sprite.stretchXValues (s : Sprite) : List Rect :=
  (match s.get_node_bbox "mapbox-stretch-x" with
    | some r => [r]
    | none => []) ++ s.stretchScan "mapbox-stretch-x-" (scanFuel s) 1

/-- As `stretchXValues`, for the y axis. -/
def Sprite.stretchYValues (s : Sprite) : List Rect :=
  (match s.get_node_bbox "mapbox-stretch-y" with
    | some r => [r]
    | none => []) ++ s.stretchScan "mapbox-stretch-y-" (scanFuel s) 1

/-- `Sprite::stretch_x_areas`: the axis-specific values, or, when there are
none, the `mapbox-stretch` shorthand. -/
def Sprite.stretch_x_areas (s : Sprite) : Option (List Rect) :=
  if s.stretchXValues = [] then
    (s.get_node_bbox "mapbox-stretch").map fun r => [r]
  else some s.stretchXValues

/-- `Sprite::stretch_y_areas`: the axis-specific values, or, when there are
none, the `mapbox-stretch` shorthand. -/
def Sprite.stretch_y_areas (s : Sprite) : Option (List Rect) :=
  if s.stretchYValues = [] then
    (s.get_node_bbox "mapbox-stretch").map fun r => [r]
  else some s.stretchYValues

/-! ### The numbered scan stops at the first gap -/

theorem get_node_bbox_some_mem {s : Sprite} {sid : String} {r : Rect}
    (h : s.get_node_bbox sid = some r) : sid ∈ s.tree.nodes.map Prod.fst := by
  rw [Sprite.get_node_bbox] at h
  cases hl : lookupKey sid s.tree.nodes with
  | none => rw [hl] at h; exact absurd h (by simp)
  | some bbox => exact lookupKey_mem_keys hl

/-- Within any window of `scanFuel s` consecutive indices there is a missing
numbered id: there are more candidate ids than ids in the tree. -/
theorem scan_gap (s : Sprite) (pre : String) (i : Nat) (hi : 0 < i) :
    ∃ m, m < scanFuel s ∧ s.get_node_bbox (pre ++ natRepr (i + m)) = none := by
  by_contra hcon
  push_neg at hcon
  have hpresent : ∀ m, m < scanFuel s → (pre ++ natRepr (i + m)) ∈ s.tree.nodes.map Prod.fst := by
    intro m hm
    cases hb : s.get_node_bbox (pre ++ natRepr (i + m)) with
    | none => exact absurd hb (hcon m hm)
    | some r => exact get_node_bbox_some_mem hb
  set ids : List String := (List.range (scanFuel s)).map fun m => pre ++ natRepr (i + m) with hids
  have hnodup : ids.Nodup := by
    rw [hids]
    refine List.Nodup.map_on ?_ (List.nodup_range _)
    intro m hm m' hm' hEq
    have := numberedId_inj (by omega) (by omega) hEq
    omega
  have hsub : ids ⊆ s.tree.nodes.map Prod.fst := by
    intro x hx
    rw [hids] at hx
    simp only [List.mem_map, List.mem_range] at hx
    obtain ⟨m, hm, rfl⟩ := hx
    exact hpresent m hm
  have hlen : ids.length ≤ (s.tree.nodes.map Prod.fst).length :=
    (List.subperm_of_subset hnodup hsub).length_le
  rw [hids] at hlen
  simp only [List.length_map, List.length_range] at hlen
  rw [scanFuel] at hlen
  omega

/-- Characterisation of the numbered scan, given a gap within the fuel window:
the collected list consists of the bounding boxes at the consecutive indices
`i, i+1, …`, and the index just past the list is the first missing one. -/
theorem stretchScan_spec (s : Sprite) (pre : String) :
    ∀ (fuel i : Nat), 0 < i →
      (∃ m, m < fuel ∧ s.get_node_bbox (pre ++ natRepr (i + m)) = none) →
      (∀ m (hm : m < (s.stretchScan pre fuel i).length),
          s.get_node_bbox (pre ++ natRepr (i + m)) =
            some ((s.stretchScan pre fuel i).get ⟨m, hm⟩)) ∧
      s.get_node_bbox (pre ++ natRepr (i + (s.stretchScan pre fuel i).length)) = none
  | 0, i, _, hgap => by
    obtain ⟨m, hm, _⟩ := hgap
    omega
  | fuel + 1, i, hi, hgap => by
    cases hb : s.get_node_bbox (pre ++ natRepr i) with
    | none =>
      have hscan : s.stretchScan pre (fuel + 1) i = [] := by
        rw [Sprite.stretchScan, hb]
      rw [hscan]
      constructor
      · intro m hm; simp at hm
      · simpa using hb
    | some r =>
      have hscan : s.stretchScan pre (fuel + 1) i = r :: s.stretchScan pre fuel (i + 1) := by
        rw [Sprite.stretchScan, hb]
      have hgap' : ∃ m, m < fuel ∧ s.get_node_bbox (pre ++ natRepr ((i + 1) + m)) = none := by
        obtain ⟨m, hm, hnone⟩ := hgap
        cases m with
        | zero => rw [Nat.add_zero] at hnone; rw [hnone] at hb; cases hb
        | succ m' =>
          refine ⟨m', by omega, ?_⟩
          have : (i + 1) + m' = i + (m' + 1) := by omega
          rw [this]
          exact hnone
      have IH := stretchScan_spec s pre fuel (i + 1) (by omega) hgap'
      rw [hscan]
      constructor
      · intro m hm
        cases m with
        | zero => simpa using hb
        | succ m' =>
          simp only [List.length_cons] at hm
          have : i + (m' + 1) = (i + 1) + m' := by omega
          rw [this]
          simpa using IH.1 m' (by omega)
      · simp only [List.length_cons]
        have : i + ((s.stretchScan pre fuel (i + 1)).length + 1)
            = (i + 1) + (s.stretchScan pre fuel (i + 1)).length := by omega
        rw [this]
        exact IH.2

/-- C7: stretch metadata lookup scans the numbered ids `mapbox-stretch-x-1`,
`-2`, … (and likewise for y) sequentially and stops at the first missing
index — the collected rectangles are exactly the bounding boxes at the
consecutive indices starting at 1, and the index one past the collected list
is missing. The `mapbox-stretch` shorthand is used only when no axis-specific
stretch nodes exist, in which case it populates the identical (same rectangle)
range list for both `stretch_x_areas` and `stretch_y_areas`. -/
theorem stretch_metadata_protocol (s : Sprite) :
    ((∀ m (hm : m < (s.stretchScan "mapbox-stretch-x-" (scanFuel s) 1).length),
        s.get_node_bbox ("mapbox-stretch-x-" ++ natRepr (1 + m)) =
          some ((s.stretchScan "mapbox-stretch-x-" (scanFuel s) 1).get ⟨m, hm⟩)) ∧
      s.get_node_bbox ("mapbox-stretch-x-" ++
        natRepr (1 + (s.stretchScan "mapbox-stretch-x-" (scanFuel s) 1).length)) = none) ∧
    ((∀ m (hm : m < (s.stretchScan "mapbox-stretch-y-" (scanFuel s) 1).length),
        s.get_node_bbox ("mapbox-stretch-y-" ++ natRepr (1 + m)) =
          some ((s.stretchScan "mapbox-stretch-y-" (scanFuel s) 1).get ⟨m, hm⟩)) ∧
      s.get_node_bbox ("mapbox-stretch-y-" ++
        natRepr (1 + (s.stretchScan "mapbox-stretch-y-" (scanFuel s) 1).length)) = none) ∧
    (s.stretchXValues ≠ [] → s.stretch_x_areas = some s.stretchXValues) ∧
    (s.stretchYValues ≠ [] → s.stretch_y_areas = some s.stretchYValues) ∧
    (s.stretchXValues = [] → s.stretchYValues = [] →
      s.stretch_x_areas = (s.get_node_bbox "mapbox-stretch").map (fun r => [r]) ∧
      s.stretch_y_areas = (s.get_node_bbox "mapbox-stretch").map (fun r => [r]) ∧
      s.stretch_x_areas = s.stretch_y_areas) := by
  have hx := stretchScan_spec s "mapbox-stretch-x-" (scanFuel s) 1 (by omega)
    (scan_gap s "mapbox-stretch-x-" 1 (by omega))
  have hy := stretchScan_spec s "mapbox-stretch-y-" (scanFuel s) 1 (by omega)
    (scan_gap s "mapbox-stretch-y-" 1 (by omega))
  refine ⟨⟨hx.1, hx.2⟩, ⟨hy.1, hy.2⟩, ?_, ?_, ?_⟩
  · intro hne
    rw [Sprite.stretch_x_areas, if_neg hne]
  · intro hne
    rw [Sprite.stretch_y_areas, if_neg hne]
  · intro hxe hye
    refine ⟨?_, ?_, ?_⟩
    · rw [Sprite.stretch_x_areas, if_pos hxe]
    · rw [Sprite.stretch_y_areas, if_pos hye]
    · rw [Sprite.stretch_x_areas, if_pos hxe, Sprite.stretch_y_areas, if_pos hye]

/-- A sprite whose SVG has a `mapbox-stretch` node and no axis-specific
stretch nodes. -/
def exSpriteStretch : Sprite :=
  ⟨⟨[("mapbox-stretch", ⟨0, 0, 1, 1⟩)]⟩, 1, ⟨1, 1, [⟨0, 0, 0, 0⟩]⟩⟩

/-- Witness for C7: with only a `mapbox-stretch` shorthand node present, both
stretch axes are populated with the identical range list. -/
theorem stretch_metadata_protocol_witness :
    exSpriteStretch.stretch_x_areas =
      (exSpriteStretch.get_node_bbox "mapbox-stretch").map (fun r => [r]) ∧
    exSpriteStretch.stretch_y_areas =
      (exSpriteStretch.get_node_bbox "mapbox-stretch").map (fun r => [r]) ∧
    exSpriteStretch.stretch_x_areas = exSpriteStretch.stretch_y_areas :=
  (stretch_metadata_protocol exSpriteStretch).2.2.2.2 (by decide) (by decide)

/-! ## Compositing and the SDF synthesiser -/

/-- Modelled from the spec: the Compositor (§4.6) copies a sprite's pixels,
unscaled, to its placement offset "using straightforward alpha-respecting
overwrite (no blending with existing content)". tiny_skia's `draw_pixmap` is
external to the repository. -/
def Pixmap.draw (target : Pixmap) (ox oy : Nat) (src : Pixmap) : Pixmap :=
  { target with
    pixels := (List.range (target.width * target.height)).map fun i =>
      let x := i % target.width
      let y := i / target.width
      if ox ≤ x ∧ x < ox + src.width ∧ oy ≤ y ∧ y < oy + src.height then
        let c := src.pixels.getD ((y - oy) * src.width + (x - ox)) ⟨0, 0, 0, 0⟩
        if c.a ≠ 0 then c else target.pixels.getD i ⟨0, 0, 0, 0⟩
      else target.pixels.getD i ⟨0, 0, 0, 0⟩ }

/-- In-bounds test and alpha lookup on a row-major alpha buffer, for signed
window coordinates. -/
def alphaInside (alpha : List Nat) (W H : Nat) (qx qy : Int) : Bool :=
  if 0 ≤ qx ∧ qx < (W : Int) ∧ 0 ≤ qy ∧ qy < (H : Int) then
    alpha.getD (qy.toNat * W + qx.toNat) 0 != 0
  else false

/-- Modelled from the spec: the squared distance from pixel `(x, y)` to the
nearest 0/non-0 alpha transition within the configured radius (§4.3 step c);
`radius²` when there is no transition in the window. The Euclidean search of
the external `sdf_glyph_renderer` kernel is over the square window of
half-width `radius`. -/
def transitionSqDist (alpha : List Nat) (W H radius : Nat) (x y : Nat) : Nat :=
  let inside := alphaInside alpha W H x y
  (List.range (2 * radius + 1)).foldl
    (fun best dy =>
      (List.range (2 * radius + 1)).foldl
        (fun b dx =>
          let qx : Int := (x : Int) + dx - (radius : Int)
          let qy : Int := (y : Int) + dy - (radius : Int)
          if alphaInside alpha W H qx qy ≠ inside then
            min b ((qx - x) ^ 2 + (qy - y) ^ 2).toNat
          else b)
        best)
    (radius * radius)

/-- Modelled from the spec: remap a signed distance to a byte using the cutoff
(§4.3 step d), so that values ≥ 192 represent "inside" at cutoff 0.25, in the
style of fontnik's `255 - 255·(d/radius + cutoff)` clamped to `0..255`. -/
def sdfRemap (radius cutoff d : ℚ) : Nat :=
  (max 0 (min (roundAway (255 - 255 * (d / radius + cutoff))) 255)).toNat

/-- Modelled from the spec: the SDF kernel (§4.3 steps c–d), a pure function
of the padded alpha buffer: per pixel, the signed Euclidean distance (negative
inside, positive outside, approximated to 1/100 pixel) to the nearest alpha
transition within `radius`, remapped to a byte via `sdfRemap`. The external
implementation lives in the `sdf_glyph_renderer` crate
(`BitmapGlyph::render_sdf` and `clamp_to_u8`), outside this repository. -/
def sdfPipeline (alpha : List Nat) (W H radius : Nat) (cutoff : ℚ) : List Nat :=
  (List.range (W * H)).map fun i =>
    let x := i % W
    let y := i / W
    let d2 := transitionSqDist alpha W H radius x y
    let d : ℚ := (Nat.sqrt (d2 * 10000) : ℚ) / 100
    sdfRemap radius cutoff (if alphaInside alpha W H x y then -d else d)

/-- `Sprite::new_sdf`: rasterise (externally), pad by a 3-pixel buffer on
every side, take the alpha channel, run the SDF kernel with radius 8 and
cutoff 0.25, and store the result as premultiplied black-with-alpha pixels.
The rasterisation of the SVG tree by resvg is external (spec §1); this takes
the already rasterised unbuffered pixmap as input. -/
def Sprite.new_sdf (tree : Tree) (pixel_ratio : Nat) (unbuff : Pixmap) : Sprite :=
  let buffer : Nat := 3
  let buffW := unbuff.width + 2 * buffer
  let buffH := unbuff.height + 2 * buffer
  let blank : Pixmap := ⟨buffW, buffH, List.replicate (buffW * buffH) ⟨0, 0, 0, 0⟩⟩
  let buffPixmap := blank.draw buffer buffer unbuff
  let alpha := buffPixmap.pixels.map fun c => c.a
  let colors := (sdfPipeline alpha buffW buffH 8 (1 / 4)).map fun v => ColorU8.mk 0 0 0 v
  ⟨tree, pixel_ratio, ⟨buffW, buffH, colors⟩⟩

theorem alpha_getD : ∀ (l : List ColorU8) (j : Nat),
    (l.map (fun c => c.a)).getD j 0 = (l.getD j ⟨0, 0, 0, 0⟩).a
  | [], _ => rfl
  | _ :: _, 0 => rfl
  | _ :: l, j + 1 => alpha_getD l j

theorem getD_replicate_color : ∀ (n i : Nat),
    (List.replicate n (ColorU8.mk 0 0 0 0)).getD i ⟨0, 0, 0, 0⟩ = ColorU8.mk 0 0 0 0
  | 0, _ => rfl
  | _ + 1, 0 => rfl
  | n + 1, i + 1 => getD_replicate_color n i

/-- The alpha channel of a blank pixmap with `src` drawn at `(ox, oy)` is a
function of the dimensions and of `src`'s alpha channel alone. -/
theorem draw_alpha (W H ox oy : Nat) (u : Pixmap) :
    ((Pixmap.mk W H (List.replicate (W * H) ⟨0, 0, 0, 0⟩)).draw ox oy u).pixels.map
        (fun c => c.a) =
      (List.range (W * H)).map fun i =>
        let x := i % W
        let y := i / W
        if ox ≤ x ∧ x < ox + u.width ∧ oy ≤ y ∧ y < oy + u.height then
          (u.pixels.map (fun c => c.a)).getD ((y - oy) * u.width + (x - ox)) 0
        else 0 := by
  rw [Pixmap.draw]
  simp only [List.map_map]
  refine List.map_congr_left ?_
  intro i _
  simp only [Function.comp]
  by_cases hreg : ox ≤ i % W ∧ i % W < ox + u.width ∧ oy ≤ i / W ∧ i / W < oy + u.height
  · rw [if_pos hreg, if_pos hreg]
    set c := u.pixels.getD ((i / W - oy) * u.width + (i % W - ox)) ⟨0, 0, 0, 0⟩ with hc
    rw [alpha_getD, ← hc]
    by_cases ha : c.a ≠ 0
    · rw [if_pos ha]
    · rw [if_neg ha]
      push_neg at ha
      rw [ha, getD_replicate_color]
  · rw [if_neg hreg, if_neg hreg, getD_replicate_color]

/-- C8: `Sprite::new_sdf` pads the rasterised sprite by a 3-pixel margin on
every side and runs the SDF kernel at radius 8 and cutoff 0.25; the output
bitmap has dimensions exactly `(w+6) × (h+6)` (with one pixel per grid cell),
its pixels are exactly the remapped SDF of the padded alpha buffer, and the
output bitmap is a deterministic function of the source's dimensions and
alpha channel alone. -/
theorem new_sdf_spec (tree : Tree) (ratio : Nat) (unbuff : Pixmap) :
    (Sprite.new_sdf tree ratio unbuff).pixmap.width = unbuff.width + 6 ∧
    (Sprite.new_sdf tree ratio unbuff).pixmap.height = unbuff.height + 6 ∧
    (Sprite.new_sdf tree ratio unbuff).pixmap.pixels.length =
      (unbuff.width + 6) * (unbuff.height + 6) ∧
    (Sprite.new_sdf tree ratio unbuff).pixmap.pixels =
      (sdfPipeline
        (((Pixmap.mk (unbuff.width + 6) (unbuff.height + 6)
            (List.replicate ((unbuff.width + 6) * (unbuff.height + 6))
              ⟨0, 0, 0, 0⟩)).draw 3 3 unbuff).pixels.map fun c => c.a)
        (unbuff.width + 6) (unbuff.height + 6) 8 (1 / 4)).map
          (fun v => ColorU8.mk 0 0 0 v) ∧
    ∀ (tree' : Tree) (ratio' : Nat) (unbuff' : Pixmap),
      unbuff'.width = unbuff.width → unbuff'.height = unbuff.height →
      unbuff'.pixels.map (fun c => c.a) = unbuff.pixels.map (fun c => c.a) →
      (Sprite.new_sdf tree' ratio' unbuff').pixmap =
        (Sprite.new_sdf tree ratio unbuff).pixmap := by
  refine ⟨rfl, rfl, ?_, rfl, ?_⟩
  · show ((sdfPipeline _ _ _ 8 (1 / 4)).map _).length = _
    rw [List.length_map, sdfPipeline, List.length_map, List.length_range]
  · intro tree' ratio' unbuff' hw hh halpha
    have halphaEq :
        ((Pixmap.mk (unbuff'.width + 2 * 3) (unbuff'.height + 2 * 3)
            (List.replicate ((unbuff'.width + 2 * 3) * (unbuff'.height + 2 * 3))
              ⟨0, 0, 0, 0⟩)).draw 3 3 unbuff').pixels.map (fun c => c.a) =
        ((Pixmap.mk (unbuff.width + 2 * 3) (unbuff.height + 2 * 3)
            (List.replicate ((unbuff.width + 2 * 3) * (unbuff.height + 2 * 3))
              ⟨0, 0, 0, 0⟩)).draw 3 3 unbuff).pixels.map (fun c => c.a) := by
      rw [draw_alpha, draw_alpha, hw, hh, halpha]
    simp only [Sprite.new_sdf]
    rw [halphaEq, hw, hh]

/-- Two 1×1 source rasters with the same alpha but different colour channels. -/
def exPixA : Pixmap := ⟨1, 1, [⟨5, 6, 7, 8⟩]⟩

/-- See `exPixA`. -/
def exPixB : Pixmap := ⟨1, 1, [⟨1, 2, 3, 8⟩]⟩

/-- Witness for C8: concrete dimensions `1×1 ↦ 7×7`, and the SDF output
coincides for two sources that agree on the alpha channel. -/
theorem new_sdf_spec_witness :
    (Sprite.new_sdf ⟨[]⟩ 1 exPixA).pixmap.width = exPixA.width + 6 ∧
    (Sprite.new_sdf ⟨[]⟩ 1 exPixA).pixmap.height = exPixA.height + 6 ∧
    (Sprite.new_sdf ⟨[]⟩ 2 exPixB).pixmap = (Sprite.new_sdf ⟨[]⟩ 1 exPixA).pixmap := by
  have h := new_sdf_spec ⟨[]⟩ 1 exPixA
  exact ⟨h.1, h.2.1, h.2.2.2.2 ⟨[]⟩ 2 exPixB (by decide) (by decide) (by decide)⟩

/-! ## Deduplication (`SpritesheetBuilder::make_unique`) -/

/-- Modelled from the spec: PNG encoding (`Pixmap::encode_png`, used as the
content fingerprint for deduplication) is an external codec (spec §1);
deduplication only compares encoded bytes for equality, and the encoding is a
deterministic function of the pixel buffer. It is modelled as the dimensions
followed by the raw RGBA bytes. -/
def encodePng (p : Pixmap) : List Nat :=
  p.width :: p.height :: p.pixels.foldr (fun c acc => c.r :: c.g :: c.b :: c.a :: acc) []

/-- The loop body of `make_unique`, iterating over the sprite map in its
`BTreeMap` (key-sorted) order. `seen` is the `names_for_sprites` map from
encoded bytes to the first name that produced them; the result is the
`unique_sprites` map (in iteration order) and the `references` multimap as the
flat list of its `(canonical, alias)` insertions. -/
def makeUniqueGo (seen : List (List Nat × String)) :
    List (String × Sprite) → List (String × Sprite) × List (String × String)
  | [] => ([], [])
  | (name, sprite) :: rest =>
    match lookupKey (encodePng sprite.pixmap) seen with
    | some existing =>
      let r := makeUniqueGo seen rest
      (r.1, (existing, name) :: r.2)
    | none =>
      let r := makeUniqueGo ((encodePng sprite.pixmap, name) :: seen) rest
      ((name, sprite) :: r.1, r.2)

/-- `SpritesheetBuilder::make_unique` applied to a sprite map: the deduplicated
sprites and the alias references. -/
def makeUniquePair (sprites : List (String × Sprite)) :
    List (String × Sprite) × List (String × String) :=
  makeUniqueGo [] sprites

/-- `MultiMap::get_vec`: every value inserted under a key, in insertion order
(an absent key yields `[]`, which the caller's `if let` skips identically). -/
def multiGet (refs : List (String × String)) (k : String) : List String :=
  (refs.filter fun pr => pr.1 == k).map Prod.snd

/-! ## The rectangle packer

The packing itself is delegated by the source to the external `crunch` crate
(`crunch::pack_into_po2(min_area * 10, items)`), whose code is not part of
this repository; it is modelled from the spec (§4.2). -/

/-- A crunch `Rect`: a placement rectangle in destination pixel space. -/
structure PRect where
  x : Nat
  y : Nat
  w : Nat
  h : Nat
deriving DecidableEq

/-- A crunch `PackedItem`: a placement rectangle and its payload. -/
structure Placed (α : Type) where
  rect : PRect
  data : α
deriving DecidableEq

/-- Two placement rectangles do not overlap: they are separated along an axis. -/
def PRect.disjoint (r s : PRect) : Prop :=
  r.x + r.w ≤ s.x ∨ s.x + s.w ≤ r.x ∨ r.y + r.h ≤ s.y ∨ s.y + s.h ≤ r.y

/-- Modelled from the spec: the free-rectangle heuristic inside a fixed square
bin. §4.2 leaves the heuristic an implementation freedom as long as the
no-overlap/containment invariants hold; items are laid out here on shelves,
left to right, starting a new shelf when the current row is full. -/
def shelfGo {α : Type} (W : Nat) :
    List (α × Nat × Nat) → Nat → Nat → Nat → List (Placed α)
  | [], _, _, _ => []
  | (a, w, h) :: rest, x, y, sh =>
    if x + w ≤ W then
      ⟨⟨x, y, w, h⟩, a⟩ :: shelfGo W rest (x + w) y (max sh h)
    else
      ⟨⟨0, y + sh, w, h⟩, a⟩ :: shelfGo W rest w (y + sh) h

/-- Modelled from the spec: attempt a packing of all items into a `W × W`
bin — a packing is valid when every rectangle lies wholly inside the bin
(§4.2: "no two placed rectangles overlap, every rectangle wholly inside the
bin"; non-overlap is proved below as `shelfGo_pairwise`). -/
def packInto {α : Type} (W : Nat) (items : List (α × Nat × Nat)) :
    Option (List (Placed α)) :=
  let placed := shelfGo W items 0 0 0
  if placed.all fun p => decide (p.rect.x + p.rect.w ≤ W ∧ p.rect.y + p.rect.h ≤ W) then
    some placed
  else none

/-- Modelled from the spec: `crunch::pack_into_po2` — try square power-of-two
bins of growing size while the bin area stays within `maxArea`, failing once
the growth bound is exceeded (§4.2's power-of-two growth policy). The fuel
only bounds the recursion; the area guard is what terminates the search. -/
def packPo2Go {α : Type} (maxArea : Nat) (items : List (α × Nat × Nat)) :
    Nat → Nat → Option (List (Placed α))
  | _, 0 => none
  | k, fuel + 1 =>
    if 2 ^ k * 2 ^ k ≤ maxArea then
      match packInto (2 ^ k) items with
      | some placed => some placed
      | none => packPo2Go maxArea items (k + 1) fuel
    else none

/-- Modelled from the spec: see `packPo2Go`. -/
def pack_into_po2 {α : Type} (maxArea : Nat) (items : List (α × Nat × Nat)) :
    Option (List (Placed α)) :=
  packPo2Go maxArea items 0 (maxArea + 1)

/-! ## The spritesheet (`Spritesheet::new` and its builder) -/

/-- `SpriteDescription`: one index entry (`src/sprite/mod.rs`). -/
structure SpriteDescription where
  height : Nat
  pixel_ratio : Nat
  width : Nat
  x : Nat
  y : Nat
  content : Option Rect
  stretch_x : Option (List Rect)
  stretch_y : Option (List Rect)
  sdf : Bool
deriving DecidableEq

/-- `SpriteDescription::new`: geometry from the placement rectangle, metadata
from the sprite, and the builder's SDF flag. -/
def SpriteDescription.new (rect : PRect) (sprite : Sprite) (sdf : Bool) :
    SpriteDescription :=
  { height := rect.h
    pixel_ratio := sprite.pixel_ratio
    width := rect.w
    x := rect.x
    y := rect.y
    content := sprite.content_area
    stretch_x := sprite.stretch_x_areas
    stretch_y := sprite.stretch_y_areas
    sdf := sdf }

/-- `PixmapItem`: the payload handed to the packer. -/
structure PixmapItem where
  name : String
  sprite : Sprite
deriving DecidableEq

/-- `BTreeMap::insert` on an association list: replace the entry with the
given key, or add one. (The real `BTreeMap` also keeps keys sorted; only the
map's lookup semantics are observable in the embedded claims.) -/
def SMap.insert {β : Type} : List (String × β) → String → β → List (String × β)
  | [], k, v => [(k, v)]
  | (k', v') :: rest, k, v =>
    if k = k' then (k, v) :: rest else (k', v') :: SMap.insert rest k v

/-- The packer items built by `Spritesheet::new`: one `(data, width, height)`
item per sprite, in map order. -/
def spriteItems (sprites : List (String × Sprite)) : List (PixmapItem × Nat × Nat) :=
  sprites.map fun pr => (⟨pr.1, pr.2⟩, pr.2.pixmap.width, pr.2.pixmap.height)

/-- `min_area` in `Spritesheet::new`: total pixel area of the sprites. -/
def minArea (sprites : List (String × Sprite)) : Nat :=
  (sprites.map fun pr => pr.2.pixmap.width * pr.2.pixmap.height).sum

/-- The packing call in `Spritesheet::new`:
`crunch::pack_into_po2(min_area * 10, items)`. -/
def packSprites (sprites : List (String × Sprite)) :
    Option (List (Placed PixmapItem)) :=
  pack_into_po2 (minArea sprites * 10) (spriteItems sprites)

/-- The index-building loop of `Spritesheet::new`: for each packed item insert
its description under its name, then insert the same description under every
alias recorded for that name in `references`. -/
def buildIndexGo (references : List (String × String)) (sdf : Bool) :
    List (Placed PixmapItem) → List (String × SpriteDescription) →
      List (String × SpriteDescription)
  | [], idx => idx
  | p :: rest, idx =>
    let d := SpriteDescription.new p.rect p.data.sprite sdf
    let idx1 := SMap.insert idx p.data.name d
    let idx2 := (multiGet references p.data.name).foldl
      (fun acc other => SMap.insert acc other d) idx1
    buildIndexGo references sdf rest idx2

/-- A bitmapped spritesheet and its matching index. -/
structure Spritesheet where
  sheet : Pixmap
  index : List (String × SpriteDescription)
deriving DecidableEq

/-- `Spritesheet::new`: pack the sprites, trim the bin to the tight bounding
box of the placements (`max right` × `max bottom`), composite the sprites at
their placements, and build the index (canonical entries plus alias entries).
The source interleaves drawing and index insertion in one loop over the packed
items; the two accumulations are independent and are written here as two
folds. -/
def Spritesheet.new (sprites : List (String × Sprite))
    (references : List (String × String)) (sdf : Bool) : Option Spritesheet :=
  match packSprites sprites with
  | none => none
  | some packed =>
    match (packed.map fun p => p.rect.x + p.rect.w).max? with
    | none => none
    | some bin_width =>
      match (packed.map fun p => p.rect.y + p.rect.h).max? with
      | none => none
      | some bin_height =>
        match Pixmap.new bin_width bin_height with
        | none => none
        | some blank =>
          some ⟨packed.foldl
              (fun acc p => acc.draw p.rect.x p.rect.y p.data.sprite.pixmap) blank,
            buildIndexGo references sdf packed []⟩

/-- `SpritesheetBuilder`. -/
structure SpritesheetBuilder where
  sprites : Option (List (String × Sprite))
  references : Option (List (String × String))
  sdf : Bool
deriving DecidableEq

/-- `SpritesheetBuilder::new`. -/
def SpritesheetBuilder.new : SpritesheetBuilder := ⟨none, none, false⟩

/-- `SpritesheetBuilder::make_unique`. -/
def SpritesheetBuilder.make_unique (b : SpritesheetBuilder) : SpritesheetBuilder :=
  match b.sprites with
  | some sp =>
    { b with
      sprites := some (makeUniquePair sp).1
      references := some (makeUniquePair sp).2 }
  | none => { b with references := none }

/-- `SpritesheetBuilder::make_sdf`. -/
def SpritesheetBuilder.make_sdf (b : SpritesheetBuilder) : SpritesheetBuilder :=
  { b with sdf := true }

/-- `SpritesheetBuilder::generate`. -/
def SpritesheetBuilder.generate (b : SpritesheetBuilder) : Option Spritesheet :=
  Spritesheet.new (b.sprites.getD []) (b.references.getD []) b.sdf

/-- Modelled from the spec: this snapshot's `Spritesheet::new` never receives
the CLI `--spacing` value (the flag is declared in `src/bin/spreet/cli.rs` and
exercised by `tests/cli.rs`, but the core that consumes it is not in the
snapshot). Per §4.2, spacing pixels of padding are added to each sprite's
effective width and height before packing, so the packing call becomes
`pack_into_po2` over items padded by `spacing` on each axis (with `min_area`
accumulated over the padded sizes). -/
def packSpritesSpacing (spacing : Nat) (sprites : List (String × Sprite)) :
    Option (List (Placed PixmapItem)) :=
  pack_into_po2
    ((sprites.map fun pr =>
        (pr.2.pixmap.width + spacing) * (pr.2.pixmap.height + spacing)).sum * 10)
    (sprites.map fun pr =>
      (⟨pr.1, pr.2⟩, pr.2.pixmap.width + spacing, pr.2.pixmap.height + spacing))

/-! ### Shelf-placement invariants -/

/-- The shelf invariant: relative to the cursor `(x, y)` and current shelf
height `sh`, an already placed rectangle lies either entirely above the
current shelf, or on the current shelf to the left of the cursor and within
the shelf height. -/
def shelfOk (x y sh : Nat) (r : PRect) : Prop :=
  r.y + r.h ≤ y ∨ (r.y = y ∧ r.x + r.w ≤ x ∧ r.h ≤ sh)

theorem PRect.disjoint_symm {r s : PRect} (h : r.disjoint s) : s.disjoint r := by
  unfold PRect.disjoint at *
  tauto

theorem shelfGo_disjoint_of_ok {α : Type} (W : Nat) :
    ∀ (items : List (α × Nat × Nat)) (x y sh : Nat) (r : PRect),
      shelfOk x y sh r → ∀ p ∈ shelfGo W items x y sh, r.disjoint p.rect
  | [], _, _, _, _, _, p, hp => by simp [shelfGo] at hp
  | (a, w, h) :: rest, x, y, sh, r, hok, p, hp => by
    rw [shelfGo] at hp
    by_cases hfit : x + w ≤ W
    · rw [if_pos hfit] at hp
      rcases List.mem_cons.mp hp with hhead | htail
      · subst hhead
        rcases hok with habove | ⟨hy, hx, _⟩
        · exact Or.inr (Or.inr (Or.inl habove))
        · exact Or.inl (by simpa [hy] using hx)
      · refine shelfGo_disjoint_of_ok W rest (x + w) y (max sh h) r ?_ p htail
        rcases hok with habove | ⟨hy, hx, hh⟩
        · exact Or.inl habove
        · exact Or.inr ⟨hy, by omega, le_trans hh (le_max_left _ _)⟩
    · rw [if_neg hfit] at hp
      rcases List.mem_cons.mp hp with hhead | htail
      · subst hhead
        rcases hok with habove | ⟨hy, _, hh⟩
        · exact Or.inr (Or.inr (Or.inl (by simpa using le_trans habove (Nat.le_add_right y sh))))
        · exact Or.inr (Or.inr (Or.inl (by simp; omega)))
      · refine shelfGo_disjoint_of_ok W rest w (y + sh) h r ?_ p htail
        rcases hok with habove | ⟨hy, _, hh⟩
        · exact Or.inl (le_trans habove (Nat.le_add_right y sh))
        · exact Or.inl (by omega)

/-- The placements produced by the shelf layout are pairwise non-overlapping. -/
theorem shelfGo_pairwise {α : Type} (W : Nat) :
    ∀ (items : List (α × Nat × Nat)) (x y sh : Nat),
      (shelfGo W items x y sh).Pairwise fun p q => p.rect.disjoint q.rect
  | [], _, _, _ => by simp [shelfGo]
  | (a, w, h) :: rest, x, y, sh => by
    rw [shelfGo]
    by_cases hfit : x + w ≤ W
    · rw [if_pos hfit]
      refine List.Pairwise.cons ?_ (shelfGo_pairwise W rest (x + w) y (max sh h))
      intro p hp
      refine shelfGo_disjoint_of_ok W rest (x + w) y (max sh h) _ ?_ p hp
      exact Or.inr ⟨rfl, le_rfl, le_max_right _ _⟩
    · rw [if_neg hfit]
      refine List.Pairwise.cons ?_ (shelfGo_pairwise W rest w (y + sh) h)
      intro p hp
      refine shelfGo_disjoint_of_ok W rest w (y + sh) h _ ?_ p hp
      exact Or.inr ⟨rfl, by simp, le_rfl⟩

/-- Every placement comes from an input item, with the item's exact size. -/
theorem shelfGo_mem {α : Type} (W : Nat) :
    ∀ (items : List (α × Nat × Nat)) (x y sh : Nat) (p : Placed α),
      p ∈ shelfGo W items x y sh →
      ∃ it ∈ items, p.data = it.1 ∧ p.rect.w = it.2.1 ∧ p.rect.h = it.2.2
  | [], _, _, _, p, hp => by simp [shelfGo] at hp
  | (a, w, h) :: rest, x, y, sh, p, hp => by
    rw [shelfGo] at hp
    by_cases hfit : x + w ≤ W
    · rw [if_pos hfit] at hp
      rcases List.mem_cons.mp hp with hhead | htail
      · exact ⟨(a, w, h), by simp, by simp [hhead]⟩
      · obtain ⟨it, hit, hrest⟩ := shelfGo_mem W rest (x + w) y (max sh h) p htail
        exact ⟨it, by simp [hit], hrest⟩
    · rw [if_neg hfit] at hp
      rcases List.mem_cons.mp hp with hhead | htail
      · exact ⟨(a, w, h), by simp, by simp [hhead]⟩
      · obtain ⟨it, hit, hrest⟩ := shelfGo_mem W rest w (y + sh) h p htail
        exact ⟨it, by simp [hit], hrest⟩

/-- The shelf layout keeps the payloads in input order. -/
theorem shelfGo_map_data {α : Type} (W : Nat) :
    ∀ (items : List (α × Nat × Nat)) (x y sh : Nat),
      (shelfGo W items x y sh).map Placed.data = items.map Prod.fst
  | [], _, _, _ => rfl
  | (a, w, h) :: rest, x, y, sh => by
    rw [shelfGo]
    by_cases hfit : x + w ≤ W
    · rw [if_pos hfit]
      simpa using shelfGo_map_data W rest (x + w) y (max sh h)
    · rw [if_neg hfit]
      simpa using shelfGo_map_data W rest w (y + sh) h

theorem packInto_elim {α : Type} {W : Nat} {items : List (α × Nat × Nat)}
    {placed : List (Placed α)} (h : packInto W items = some placed) :
    placed = shelfGo W items 0 0 0 ∧
      ∀ p ∈ placed, p.rect.x + p.rect.w ≤ W ∧ p.rect.y + p.rect.h ≤ W := by
  rw [packInto] at h
  by_cases hall : (shelfGo W items 0 0 0).all
      fun p => decide (p.rect.x + p.rect.w ≤ W ∧ p.rect.y + p.rect.h ≤ W)
  · rw [if_pos hall] at h
    injection h with h
    subst h
    refine ⟨rfl, ?_⟩
    intro p hp
    have := List.all_eq_true.mp hall p hp
    exact of_decide_eq_true this
  · rw [if_neg hall] at h
    cases h

theorem packPo2Go_elim {α : Type} {maxArea : Nat} {items : List (α × Nat × Nat)} :
    ∀ {k fuel : Nat} {placed : List (Placed α)},
      packPo2Go maxArea items k fuel = some placed →
      ∃ W, packInto W items = some placed
  | _, 0, _, h => by cases h
  | k, fuel + 1, placed, h => by
    rw [packPo2Go] at h
    by_cases hguard : 2 ^ k * 2 ^ k ≤ maxArea
    · rw [if_pos hguard] at h
      cases hpk : packInto (2 ^ k) items with
      | some pl =>
        rw [hpk] at h
        injection h with h
        subst h
        exact ⟨2 ^ k, hpk⟩
      | none =>
        rw [hpk] at h
        exact packPo2Go_elim h
    · rw [if_neg hguard] at h
      cases h

theorem pack_into_po2_elim {α : Type} {maxArea : Nat} {items : List (α × Nat × Nat)}
    {placed : List (Placed α)} (h : pack_into_po2 maxArea items = some placed) :
    ∃ W, packInto W items = some placed :=
  packPo2Go_elim h

/-- Any successful packing: pairwise non-overlapping placements, payloads in
input order, and each placement sized exactly as its item. -/
theorem pack_into_po2_spec {α : Type} {maxArea : Nat} {items : List (α × Nat × Nat)}
    {placed : List (Placed α)} (h : pack_into_po2 maxArea items = some placed) :
    placed.Pairwise (fun p q => p.rect.disjoint q.rect) ∧
      placed.map Placed.data = items.map Prod.fst ∧
      ∀ p ∈ placed, ∃ it ∈ items, p.data = it.1 ∧ p.rect.w = it.2.1 ∧ p.rect.h = it.2.2 := by
  obtain ⟨W, hpack⟩ := pack_into_po2_elim h
  obtain ⟨hplaced, _⟩ := packInto_elim hpack
  subst hplaced
  exact ⟨shelfGo_pairwise W items 0 0 0, shelfGo_map_data W items 0 0 0,
    fun p hp => shelfGo_mem W items 0 0 0 p hp⟩

/-! ### `max?`, `Pixmap.new` and composited dimensions -/

theorem foldl_max_le {a b : Nat} : ∀ {l : List Nat}, a ∈ l → a ≤ l.foldl max b
  | c :: l, h => by
    rcases List.mem_cons.mp h with rfl | hmem
    · calc a ≤ max b a := le_max_right _ _
        _ ≤ (l.foldl max (max b a)) := foldl_max_init_le
    · show a ≤ l.foldl max (max b c)
      exact foldl_max_le hmem
where
  foldl_max_init_le : ∀ {l : List Nat} {b : Nat}, b ≤ l.foldl max b
    | [], _ => le_rfl
    | c :: l, b => le_trans (le_max_left b c) foldl_max_init_le

theorem max?_ge_of_mem {l : List Nat} {m a : Nat} (hm : l.max? = some m)
    (ha : a ∈ l) : a ≤ m := by
  cases l with
  | nil => cases ha
  | cons c l =>
    rw [List.max?_cons'] at hm
    injection hm with hm
    subst hm
    rcases List.mem_cons.mp ha with rfl | hmem
    · exact foldl_max_le.foldl_max_init_le
    · exact foldl_max_le hmem

theorem Pixmap.new_elim {w h : Nat} {p : Pixmap} (hp : Pixmap.new w h = some p) :
    p.width = w ∧ p.height = h := by
  rw [Pixmap.new] at hp
  by_cases hz : w = 0 ∨ h = 0
  · rw [if_pos hz] at hp; cases hp
  · rw [if_neg hz] at hp
    injection hp with hp
    subst hp
    exact ⟨rfl, rfl⟩

theorem foldDraw_dims :
    ∀ (packed : List (Placed PixmapItem)) (acc : Pixmap),
      (packed.foldl (fun acc p => acc.draw p.rect.x p.rect.y p.data.sprite.pixmap)
          acc).width = acc.width ∧
      (packed.foldl (fun acc p => acc.draw p.rect.x p.rect.y p.data.sprite.pixmap)
          acc).height = acc.height
  | [], _ => ⟨rfl, rfl⟩
  | _ :: rest, _ => foldDraw_dims rest _

/-! ### Index lookup lemmas -/

theorem lookupKey_insert_self {β : Type} (k : String) (v : β) :
    ∀ (idx : List (String × β)), lookupKey k (SMap.insert idx k v) = some v
  | [] => by simp [SMap.insert, lookupKey]
  | (k', v') :: rest => by
    rw [SMap.insert]
    by_cases hk : k = k'
    · rw [if_pos hk, lookupKey, if_pos rfl]
    · rw [if_neg hk, lookupKey, if_neg hk]
      exact lookupKey_insert_self k v rest

theorem lookupKey_insert_ne {β : Type} {m k : String} (v : β) (hne : m ≠ k) :
    ∀ (idx : List (String × β)), lookupKey m (SMap.insert idx k v) = lookupKey m idx
  | [] => by simp [SMap.insert, lookupKey, hne]
  | (k', v') :: rest => by
    rw [SMap.insert]
    by_cases hk : k = k'
    · rw [if_pos hk]
      subst hk
      simp only [lookupKey]
      rw [if_neg hne, if_neg hne]
    · rw [if_neg hk]
      simp only [lookupKey]
      by_cases hm : m = k'
      · rw [if_pos hm, if_pos hm]
      · rw [if_neg hm, if_neg hm]
        exact lookupKey_insert_ne v hne rest

theorem lookupKey_foldl_insert {β : Type} (d : β) (m : String) :
    ∀ (aliases : List String) (idx : List (String × β)),
      lookupKey m (aliases.foldl (fun acc o => SMap.insert acc o d) idx) =
        if m ∈ aliases then some d else lookupKey m idx
  | [], idx => by simp
  | a :: rest, idx => by
    rw [List.foldl_cons, lookupKey_foldl_insert d m rest (SMap.insert idx a d)]
    by_cases hrest : m ∈ rest
    · rw [if_pos hrest, if_pos (List.mem_cons.mpr (Or.inr hrest))]
    · rw [if_neg hrest]
      by_cases ha : m = a
      · subst ha
        rw [if_pos (List.mem_cons.mpr (Or.inl rfl)), lookupKey_insert_self]
      · rw [lookupKey_insert_ne d ha idx, if_neg]
        intro hmem
        rcases List.mem_cons.mp hmem with h | h
        · exact ha h
        · exact hrest h

theorem lookupKey_some_mem {κ β : Type} [DecidableEq κ] {k : κ} {v : β} :
    ∀ {l : List (κ × β)}, lookupKey k l = some v → (k, v) ∈ l
  | [], h => by cases h
  | (k', v') :: rest, h => by
    rw [lookupKey] at h
    by_cases hk : k = k'
    · rw [if_pos hk] at h
      injection h with h
      subst hk; subst h
      exact List.mem_cons.mpr (Or.inl rfl)
    · rw [if_neg hk] at h
      exact List.mem_cons.mpr (Or.inr (lookupKey_some_mem h))

theorem lookupKey_of_mem_nodup {κ β : Type} [DecidableEq κ] {k : κ} {v : β} :
    ∀ {l : List (κ × β)}, (k, v) ∈ l → (l.map Prod.fst).Nodup → lookupKey k l = some v
  | [], h, _ => by cases h
  | (k', v') :: rest, h, hnd => by
    rcases List.mem_cons.mp h with hhead | htail
    · injection hhead with h1 h2
      subst h1; subst h2
      rw [lookupKey, if_pos rfl]
    · have hk : k ≠ k' := by
        intro hEq
        subst hEq
        have : k ∈ rest.map Prod.fst := List.mem_map.mpr ⟨(k, v), htail, rfl⟩
        simp only [List.map_cons, List.nodup_cons] at hnd
        exact hnd.1 this
      rw [lookupKey, if_neg hk]
      exact lookupKey_of_mem_nodup htail (by
        simp only [List.map_cons, List.nodup_cons] at hnd
        exact hnd.2)

theorem lookupKey_eq_none {κ β : Type} [DecidableEq κ] {k : κ} :
    ∀ {l : List (κ × β)}, k ∉ l.map Prod.fst → lookupKey k l = none
  | [], _ => rfl
  | (k', v') :: rest, h => by
    have hk : k ≠ k' := by
      intro hEq
      exact h (by simp [hEq])
    rw [lookupKey, if_neg hk]
    exact lookupKey_eq_none fun hmem => h (by simp [hmem])

/-- Names touched by the index-building loop: each packed item's canonical
name together with all of its aliases. -/
def touchedNames (refs : List (String × String))
    (packed : List (Placed PixmapItem)) : List String :=
  packed.flatMap fun p => p.data.name :: multiGet refs p.data.name

theorem buildIndexGo_untouched (refs : List (String × String)) (sdf : Bool)
    {t : String} :
    ∀ (packed : List (Placed PixmapItem)) (idx : List (String × SpriteDescription)),
      t ∉ touchedNames refs packed →
      lookupKey t (buildIndexGo refs sdf packed idx) = lookupKey t idx
  | [], idx, _ => rfl
  | p :: rest, idx, hnot => by
    have hname : t ≠ p.data.name := by
      intro hEq
      exact hnot (by simp [touchedNames, hEq])
    have halias : t ∉ multiGet refs p.data.name := by
      intro hmem
      exact hnot (by simp [touchedNames, hmem])
    have hrest : t ∉ touchedNames refs rest := by
      intro hmem
      refine hnot ?_
      rcases List.mem_flatMap.mp hmem with ⟨q, hq, ht⟩
      exact List.mem_flatMap.mpr ⟨q, List.mem_cons.mpr (Or.inr hq), ht⟩
    rw [buildIndexGo, buildIndexGo_untouched refs sdf rest _ hrest,
      lookupKey_foldl_insert, if_neg halias, lookupKey_insert_ne _ hname]

/-- The central index lemma: a packed item's canonical name, and each of its
aliases, looks up to that item's description, provided the name is not touched
again by a later item. -/
theorem buildIndexGo_lookup (refs : List (String × String)) (sdf : Bool)
    {p : Placed PixmapItem} {t : String}
    (ht : t = p.data.name ∨ t ∈ multiGet refs p.data.name) :
    ∀ (l1 l2 : List (Placed PixmapItem)) (idx : List (String × SpriteDescription)),
      t ∉ touchedNames refs l2 →
      lookupKey t (buildIndexGo refs sdf (l1 ++ p :: l2) idx) =
        some (SpriteDescription.new p.rect p.data.sprite sdf)
  | [], l2, idx, hnot => by
    rw [List.nil_append, buildIndexGo,
      buildIndexGo_untouched refs sdf l2 _ hnot, lookupKey_foldl_insert]
    rcases ht with hname | halias
    · by_cases hmem : t ∈ multiGet refs p.data.name
      · rw [if_pos hmem]
      · rw [if_neg hmem, hname, lookupKey_insert_self]
    · rw [if_pos halias]
  | q :: l1, l2, idx, hnot => by
    rw [List.cons_append, buildIndexGo]
    exact buildIndexGo_lookup refs sdf ht l1 l2 _ hnot

theorem SMap.insert_mem {β : Type} {m k : String} {v w : β} :
    ∀ {idx : List (String × β)}, (m, v) ∈ SMap.insert idx k w →
      (m = k ∧ v = w) ∨ (m, v) ∈ idx
  | [], h => by
    rw [SMap.insert] at h
    rcases List.mem_cons.mp h with hh | hh
    · injection hh with h1 h2; exact Or.inl ⟨h1, h2⟩
    · cases hh
  | (k', v') :: rest, h => by
    rw [SMap.insert] at h
    by_cases hk : k = k'
    · rw [if_pos hk] at h
      rcases List.mem_cons.mp h with hh | hh
      · injection hh with h1 h2; exact Or.inl ⟨h1, h2⟩
      · exact Or.inr (List.mem_cons.mpr (Or.inr hh))
    · rw [if_neg hk] at h
      rcases List.mem_cons.mp h with hh | hh
      · exact Or.inr (List.mem_cons.mpr (Or.inl hh))
      · rcases SMap.insert_mem hh with h1 | h1
        · exact Or.inl h1
        · exact Or.inr (List.mem_cons.mpr (Or.inr h1))

theorem foldl_insert_mem {β : Type} {m : String} {v d : β} :
    ∀ (aliases : List String) {idx : List (String × β)},
      (m, v) ∈ aliases.foldl (fun acc o => SMap.insert acc o d) idx →
      v = d ∨ (m, v) ∈ idx
  | [], _, h => Or.inr h
  | a :: rest, idx, h => by
    rw [List.foldl_cons] at h
    rcases foldl_insert_mem rest h with h1 | h1
    · exact Or.inl h1
    · rcases SMap.insert_mem h1 with h2 | h2
      · exact Or.inl h2.2
      · exact Or.inr h2

/-- Every value in the built index is the description of some packed item. -/
theorem buildIndexGo_mem (refs : List (String × String)) (sdf : Bool)
    {n : String} {d : SpriteDescription} :
    ∀ (packed : List (Placed PixmapItem)) (idx : List (String × SpriteDescription)),
      (n, d) ∈ buildIndexGo refs sdf packed idx →
      (∃ p ∈ packed, d = SpriteDescription.new p.rect p.data.sprite sdf) ∨ (n, d) ∈ idx
  | [], idx, h => Or.inr h
  | p :: rest, idx, h => by
    rw [buildIndexGo] at h
    rcases buildIndexGo_mem refs sdf rest _ h with h1 | h1
    · obtain ⟨q, hq, hd⟩ := h1
      exact Or.inl ⟨q, List.mem_cons.mpr (Or.inr hq), hd⟩
    · rcases foldl_insert_mem _ h1 with h2 | h2
      · exact Or.inl ⟨p, List.mem_cons.mpr (Or.inl rfl), h2⟩
      · rcases SMap.insert_mem h2 with h3 | h3
        · exact Or.inl ⟨p, List.mem_cons.mpr (Or.inl rfl), h3.2⟩
        · exact Or.inr h3

/-! ### Deduplication lemmas -/

theorem multiGet_mem {refs : List (String × String)} {c a : String}
    (h : (c, a) ∈ refs) : a ∈ multiGet refs c := by
  refine List.mem_map.mpr ⟨(c, a), ?_, rfl⟩
  exact List.mem_filter.mpr ⟨h, by simp⟩

theorem multiGet_pair_mem {refs : List (String × String)} {c a : String}
    (h : a ∈ multiGet refs c) : (c, a) ∈ refs := by
  rcases List.mem_map.mp h with ⟨pr, hpr, hsnd⟩
  rcases List.mem_filter.mp hpr with ⟨hmem, hfst⟩
  have h1 : pr.1 = c := by simpa using hfst
  have : pr = (c, a) := by
    cases pr
    simp only at h1 hsnd
    rw [h1, hsnd]
  rwa [this] at hmem

theorem multiGet_subset_snd {refs : List (String × String)} {c a : String}
    (h : a ∈ multiGet refs c) : a ∈ refs.map Prod.snd :=
  List.mem_map.mpr ⟨(c, a), multiGet_pair_mem h, rfl⟩

/-- Once a fingerprint has an owner in `names_for_sprites`, every later sprite
with that fingerprint is recorded as an alias of that owner. -/
theorem makeUniqueGo_alias {b : List Nat} {c : String} :
    ∀ (l : List (String × Sprite)) (seen : List (List Nat × String)),
      lookupKey b seen = some c →
      ∀ (n2 : String) (s2 : Sprite), (n2, s2) ∈ l → encodePng s2.pixmap = b →
        (c, n2) ∈ (makeUniqueGo seen l).2
  | [], _, _, _, _, h, _ => by cases h
  | (m, t) :: rest, seen, hseen, n2, s2, hmem, hb => by
    rcases List.mem_cons.mp hmem with hhead | htail
    · injection hhead with h1 h2
      subst h1; subst h2
      rw [makeUniqueGo, hb, hseen]
      exact List.mem_cons.mpr (Or.inl rfl)
    · rw [makeUniqueGo]
      cases hlk : lookupKey (encodePng t.pixmap) seen with
      | some e =>
        exact List.mem_cons.mpr (Or.inr (makeUniqueGo_alias rest seen hseen n2 s2 htail hb))
      | none =>
        have hne : b ≠ encodePng t.pixmap := by
          intro hEq
          rw [← hEq] at hlk
          rw [hlk] at hseen
          cases hseen
        have hseen' : lookupKey b ((encodePng t.pixmap, m) :: seen) = some c := by
          rw [lookupKey, if_neg hne]
          exact hseen
        exact makeUniqueGo_alias rest _ hseen' n2 s2 htail hb

/-- The first sprite bearing a fresh fingerprint is kept as canonical, and
every later sprite with the same fingerprint becomes its alias. -/
theorem makeUniqueGo_canonical {b : List Nat} {n1 : String} {s1 : Sprite}
    (hb1 : encodePng s1.pixmap = b) :
    ∀ (l1 l2 : List (String × Sprite)) (seen : List (List Nat × String)),
      lookupKey b seen = none →
      (∀ p ∈ l1, encodePng p.2.pixmap ≠ b) →
      (n1, s1) ∈ (makeUniqueGo seen (l1 ++ (n1, s1) :: l2)).1 ∧
      ∀ (n2 : String) (s2 : Sprite), (n2, s2) ∈ l2 → encodePng s2.pixmap = b →
        (n1, n2) ∈ (makeUniqueGo seen (l1 ++ (n1, s1) :: l2)).2
  | [], l2, seen, hnone, _ => by
    rw [List.nil_append, makeUniqueGo, hb1, hnone]
    constructor
    · exact List.mem_cons.mpr (Or.inl rfl)
    · intro n2 s2 hmem hb2
      have hseen' : lookupKey b ((b, n1) :: seen) = some n1 := by
        rw [lookupKey, if_pos rfl]
      exact makeUniqueGo_alias l2 _ hseen' n2 s2 hmem hb2
  | (m, t) :: l1, l2, seen, hnone, hfirst => by
    have hmt : encodePng t.pixmap ≠ b := hfirst (m, t) (List.mem_cons.mpr (Or.inl rfl))
    have hfirst' : ∀ p ∈ l1, encodePng p.2.pixmap ≠ b := fun p hp =>
      hfirst p (List.mem_cons.mpr (Or.inr hp))
    rw [List.cons_append, makeUniqueGo]
    cases hlk : lookupKey (encodePng t.pixmap) seen with
    | some e =>
      have IH := @makeUniqueGo_canonical b n1 s1 hb1 l1 l2 seen hnone hfirst'
      exact ⟨IH.1, fun n2 s2 hmem hb2 =>
        List.mem_cons.mpr (Or.inr (IH.2 n2 s2 hmem hb2))⟩
    | none =>
      have hnone' : lookupKey b ((encodePng t.pixmap, m) :: seen) = none := by
        rw [lookupKey, if_neg fun hEq => hmt hEq.symm]
        exact hnone
      have IH := @makeUniqueGo_canonical b n1 s1 hb1 l1 l2 _ hnone' hfirst'
      exact ⟨List.mem_cons.mpr (Or.inr IH.1), IH.2⟩

/-- The canonical names and the alias names together are a permutation of the
input names: each input sprite becomes exactly one of the two. -/
theorem makeUniqueGo_perm :
    ∀ (l : List (String × Sprite)) (seen : List (List Nat × String)),
      ((makeUniqueGo seen l).1.map Prod.fst ++
        (makeUniqueGo seen l).2.map Prod.snd).Perm (l.map Prod.fst)
  | [], _ => by simp [makeUniqueGo]
  | (m, t) :: rest, seen => by
    rw [makeUniqueGo]
    cases hlk : lookupKey (encodePng t.pixmap) seen with
    | some e =>
      exact List.Perm.trans List.perm_middle ((makeUniqueGo_perm rest seen).cons m)
    | none =>
      exact (makeUniqueGo_perm rest _).cons m

/-! ### Eliminating a successful `Spritesheet::new` -/

theorem new_some_elim {sprites : List (String × Sprite)}
    {refs : List (String × String)} {sdf : Bool} {sheet : Spritesheet}
    (h : Spritesheet.new sprites refs sdf = some sheet) :
    ∃ packed, packSprites sprites = some packed ∧
      sheet.index = buildIndexGo refs sdf packed [] ∧
      (packed.map fun p => p.rect.x + p.rect.w).max? = some sheet.sheet.width ∧
      (packed.map fun p => p.rect.y + p.rect.h).max? = some sheet.sheet.height := by
  rw [Spritesheet.new] at h
  split at h
  · cases h
  · rename_i packed hpk
    split at h
    · cases h
    · rename_i bw hw
      split at h
      · cases h
      · rename_i bh hh
        split at h
        · cases h
        · rename_i blank hpix
          injection h with h
          subst h
          refine ⟨packed, hpk, rfl, ?_, ?_⟩
          · show (packed.map fun p => p.rect.x + p.rect.w).max? =
              some ((packed.foldl
                (fun acc p => acc.draw p.rect.x p.rect.y p.data.sprite.pixmap)
                  blank).width)
            rw [(foldDraw_dims packed blank).1, (Pixmap.new_elim hpix).1, hw]
          · show (packed.map fun p => p.rect.y + p.rect.h).max? =
              some ((packed.foldl
                (fun acc p => acc.draw p.rect.x p.rect.y p.data.sprite.pixmap)
                  blank).height)
            rw [(foldDraw_dims packed blank).2, (Pixmap.new_elim hpix).2, hh]

theorem packSprites_names {sprites : List (String × Sprite)}
    {packed : List (Placed PixmapItem)} (h : packSprites sprites = some packed) :
    packed.map (fun p => p.data.name) = sprites.map Prod.fst := by
  have h2 := (pack_into_po2_spec h).2.1
  have h3 := congrArg (List.map PixmapItem.name) h2
  simpa [List.map_map, spriteItems, Function.comp] using h3

/-! ## Claim theorems: error handling and packing -/

/-- C9: building a spritesheet from an empty sprite set is fatal —
`Spritesheet::new` on an empty map returns `None` (no spritesheet, so no
output artifact), and `SpritesheetBuilder::generate` with no sprites set does
the same. -/
theorem empty_sprites_fatal (refs : List (String × String)) (sdf : Bool)
    (orefs : Option (List (String × String))) (osdf : Bool) :
    Spritesheet.new [] refs sdf = none ∧
    SpritesheetBuilder.generate ⟨none, orefs, osdf⟩ = none :=
  ⟨rfl, rfl⟩

/-- C6: when the packer cannot place all rectangles within the growth bound,
`Spritesheet::new` fails as a whole (the `.ok()?` propagation), and so does
`SpritesheetBuilder::generate`; no partial or degraded spritesheet is
produced. -/
theorem pack_failure_fatal (sprites : List (String × Sprite))
    (refs : List (String × String)) (sdf : Bool)
    (h : packSprites sprites = none) :
    Spritesheet.new sprites refs sdf = none ∧
    SpritesheetBuilder.generate ⟨some sprites, some refs, sdf⟩ = none := by
  have h1 : Spritesheet.new sprites refs sdf = none := by
    rw [Spritesheet.new, h]
  exact ⟨h1, h1⟩

/-- A sprite whose bitmap (1×5) cannot fit any power-of-two bin allowed by the
ten-fold growth bound. -/
def exSpriteTall : Sprite := ⟨⟨[]⟩, 1, ⟨1, 5, List.replicate 5 ⟨0, 0, 0, 0⟩⟩⟩

/-- Witness for C6 at a concrete unpackable input. -/
theorem pack_failure_fatal_witness :
    packSprites [("tall", exSpriteTall)] = none ∧
    Spritesheet.new [("tall", exSpriteTall)] [] false = none ∧
    SpritesheetBuilder.generate ⟨some [("tall", exSpriteTall)], some [], false⟩ = none := by
  have h : packSprites [("tall", exSpriteTall)] = none := by decide
  have h2 := pack_failure_fatal [("tall", exSpriteTall)] [] false h
  exact ⟨h, h2.1, h2.2⟩

/-- C5: on success the produced bitmap is trimmed tight — its width is the
maximum of `x + width` and its height the maximum of `y + height` over all
placements — and the trimming does not change any placement: every packed
item appears in the index under its name with exactly the packer's
coordinates. The freshness hypotheses say the input names are unique and the
alias names do not collide with them, which is how `Spritesheet::new` is
invoked (the sprite map has unique keys and `make_unique` removes every alias
from the map). -/
theorem new_tight_dimensions (sprites : List (String × Sprite))
    (refs : List (String × String)) (sdf : Bool)
    (packed : List (Placed PixmapItem)) (sheet : Spritesheet)
    (hnd : (sprites.map Prod.fst).Nodup)
    (hfresh : ∀ pr ∈ refs, pr.2 ∉ sprites.map Prod.fst)
    (hpack : packSprites sprites = some packed)
    (hnew : Spritesheet.new sprites refs sdf = some sheet) :
    (packed.map fun p => p.rect.x + p.rect.w).max? = some sheet.sheet.width ∧
    (packed.map fun p => p.rect.y + p.rect.h).max? = some sheet.sheet.height ∧
    ∀ p ∈ packed, lookupKey p.data.name sheet.index =
      some (SpriteDescription.new p.rect p.data.sprite sdf) := by
  obtain ⟨packed', hpack', hindex, hw, hh⟩ := new_some_elim hnew
  rw [hpack] at hpack'
  injection hpack' with hpack'
  subst hpack'
  refine ⟨hw, hh, ?_⟩
  intro p hp
  have hnames : packed.map (fun p => p.data.name) = sprites.map Prod.fst :=
    packSprites_names hpack
  have hpname : p.data.name ∈ sprites.map Prod.fst := by
    rw [← hnames]
    exact List.mem_map.mpr ⟨p, hp, rfl⟩
  obtain ⟨u1, u2, hdecomp⟩ := List.append_of_mem hp
  have hnd2 : (packed.map fun p => p.data.name).Nodup := by
    rw [hnames]; exact hnd
  have hnotin2 : p.data.name ∉ u2.map fun q => q.data.name := by
    rw [hdecomp] at hnd2
    simp only [List.map_append, List.map_cons] at hnd2
    have := (List.nodup_append.mp hnd2).2.1
    exact (List.nodup_cons.mp this).1
  have hnot : p.data.name ∉ touchedNames refs u2 := by
    intro hmem
    rcases List.mem_flatMap.mp hmem with ⟨q, hq, hin⟩
    rcases List.mem_cons.mp hin with hEq | halias
    · exact hnotin2 (hEq ▸ List.mem_map.mpr ⟨q, hq, rfl⟩)
    · obtain ⟨pr, hpr, hsnd⟩ := List.mem_map.mp (multiGet_subset_snd halias)
      exact hfresh pr hpr (hsnd ▸ hpname)
  rw [hindex, hdecomp]
  exact buildIndexGo_lookup refs sdf (Or.inl rfl) u1 u2 [] hnot

/-- The description of the single sprite of `exS1`/`exS2` in a spritesheet. -/
def exDescA : SpriteDescription := ⟨1, 1, 1, 0, 0, none, none, none, false⟩

/-- A 1×1 sprite with an empty SVG tree. -/
def exSpriteA : Sprite := ⟨⟨[]⟩, 1, ⟨1, 1, [⟨0, 0, 0, 0⟩]⟩⟩

/-- A one-sprite input map. -/
def exS1 : List (String × Sprite) := [("a", exSpriteA)]

/-- The packing of `exS1`. -/
def exPacked1 : List (Placed PixmapItem) := [⟨⟨0, 0, 1, 1⟩, ⟨"a", exSpriteA⟩⟩]

/-- The spritesheet built from `exS1`. -/
def exSheet1 : Spritesheet := ⟨⟨1, 1, [⟨0, 0, 0, 0⟩]⟩, [("a", exDescA)]⟩

/-- Witness for C5 at the concrete one-sprite input. -/
theorem new_tight_dimensions_witness :
    packSprites exS1 = some exPacked1 ∧
    Spritesheet.new exS1 [] false = some exSheet1 ∧
    (exPacked1.map fun p => p.rect.x + p.rect.w).max? = some exSheet1.sheet.width ∧
    (exPacked1.map fun p => p.rect.y + p.rect.h).max? = some exSheet1.sheet.height ∧
    ∀ p ∈ exPacked1, lookupKey p.data.name exSheet1.index =
      some (SpriteDescription.new p.rect p.data.sprite false) := by
  have hpack : packSprites exS1 = some exPacked1 := by decide
  have hnew : Spritesheet.new exS1 [] false = some exSheet1 := by decide
  have h := new_tight_dimensions exS1 [] false exPacked1 exSheet1 (by decide)
    (by simp) hpack hnew
  exact ⟨hpack, hnew, h.1, h.2.1, h.2.2⟩

/-- C4 (modelled from the spec, the spacing plumbing being absent from this
snapshot's core): packing with a spacing value pads every sprite's effective
width and height by `spacing` before packing, and consequently any two placed
sprites end up at least `spacing` pixels apart along some axis. -/
theorem spacing_separates (spacing : Nat) (sprites : List (String × Sprite))
    (packed : List (Placed PixmapItem))
    (h : packSpritesSpacing spacing sprites = some packed) :
    (∀ p ∈ packed, p.rect.w = p.data.sprite.pixmap.width + spacing ∧
      p.rect.h = p.data.sprite.pixmap.height + spacing) ∧
    ∀ p ∈ packed, ∀ q ∈ packed, p ≠ q →
      p.rect.x + p.data.sprite.pixmap.width + spacing ≤ q.rect.x ∨
      q.rect.x + q.data.sprite.pixmap.width + spacing ≤ p.rect.x ∨
      p.rect.y + p.data.sprite.pixmap.height + spacing ≤ q.rect.y ∨
      q.rect.y + q.data.sprite.pixmap.height + spacing ≤ p.rect.y := by
  obtain ⟨hpair, _, hmem⟩ := pack_into_po2_spec h
  have hdims : ∀ p ∈ packed, p.rect.w = p.data.sprite.pixmap.width + spacing ∧
      p.rect.h = p.data.sprite.pixmap.height + spacing := by
    intro p hp
    obtain ⟨it, hit, hdata, hw, hh⟩ := hmem p hp
    obtain ⟨pr, _, hpr⟩ := List.mem_map.mp hit
    constructor
    · rw [hw, ← hpr, hdata, ← hpr]
    · rw [hh, ← hpr, hdata, ← hpr]
  refine ⟨hdims, ?_⟩
  intro p hp q hq hne
  have hdisj := List.Pairwise.forall (fun _ _ h => PRect.disjoint_symm h) hpair hp hq hne
  obtain ⟨hpw, hph⟩ := hdims p hp
  obtain ⟨hqw, hqh⟩ := hdims q hq
  rcases hdisj with h1 | h1 | h1 | h1
  · exact Or.inl (by rw [hpw] at h1; omega)
  · exact Or.inr (Or.inl (by rw [hqw] at h1; omega))
  · exact Or.inr (Or.inr (Or.inl (by rw [hph] at h1; omega)))
  · exact Or.inr (Or.inr (Or.inr (by rw [hqh] at h1; omega)))

/-- A two-sprite input map with byte-identical 1×1 sprites. -/
def exS2 : List (String × Sprite) := [("a", exSpriteA), ("b", exSpriteA)]

/-- The packing of `exS2` with spacing 2. -/
def exPacked4 : List (Placed PixmapItem) :=
  [⟨⟨0, 0, 3, 3⟩, ⟨"a", exSpriteA⟩⟩, ⟨⟨3, 0, 3, 3⟩, ⟨"b", exSpriteA⟩⟩]

/-- Witness for C4: two 1×1 sprites packed with spacing 2 get effective size
3×3 and land at least 2 pixels apart. -/
theorem spacing_separates_witness :
    packSpritesSpacing 2 exS2 = some exPacked4 ∧
    (∀ p ∈ exPacked4, p.rect.w = p.data.sprite.pixmap.width + 2 ∧
      p.rect.h = p.data.sprite.pixmap.height + 2) ∧
    ∀ p ∈ exPacked4, ∀ q ∈ exPacked4, p ≠ q →
      p.rect.x + p.data.sprite.pixmap.width + 2 ≤ q.rect.x ∨
      q.rect.x + q.data.sprite.pixmap.width + 2 ≤ p.rect.x ∨
      p.rect.y + p.data.sprite.pixmap.height + 2 ≤ q.rect.y ∨
      q.rect.y + q.data.sprite.pixmap.height + 2 ≤ p.rect.y := by
  have hpack : packSpritesSpacing 2 exS2 = some exPacked4 := by decide
  have h := spacing_separates 2 exS2 exPacked4 hpack
  exact ⟨hpack, h.1, h.2⟩

/-- C1 (amended): whenever `Spritesheet::new` succeeds, any two rectangles
recorded in the index either have identical geometry (which happens exactly
for alias entries, which duplicate their canonical sprite's placement) or do
not overlap; and every recorded rectangle is fully contained within the
reported bin dimensions (`x + width ≤ bin width`, `y + height ≤ bin height`). -/
theorem index_rects_equal_or_disjoint (sprites : List (String × Sprite))
    (refs : List (String × String)) (sdf : Bool) (sheet : Spritesheet)
    (hnew : Spritesheet.new sprites refs sdf = some sheet) :
    (∀ na da nb db, lookupKey na sheet.index = some da →
      lookupKey nb sheet.index = some db →
      (da.x = db.x ∧ da.y = db.y ∧ da.width = db.width ∧ da.height = db.height) ∨
      da.x + da.width ≤ db.x ∨ db.x + db.width ≤ da.x ∨
      da.y + da.height ≤ db.y ∨ db.y + db.height ≤ da.y) ∧
    (∀ n d, lookupKey n sheet.index = some d →
      d.x + d.width ≤ sheet.sheet.width ∧ d.y + d.height ≤ sheet.sheet.height) := by
  obtain ⟨packed, hpack, hindex, hw, hh⟩ := new_some_elim hnew
  have hpair := (pack_into_po2_spec hpack).1
  have hfrom : ∀ {n : String} {d : SpriteDescription},
      lookupKey n sheet.index = some d →
      ∃ p ∈ packed, d = SpriteDescription.new p.rect p.data.sprite sdf := by
    intro n d hl
    rw [hindex] at hl
    rcases buildIndexGo_mem refs sdf packed [] (lookupKey_some_mem hl) with hres | hres
    · exact hres
    · cases hres
  constructor
  · intro na da nb db hla hlb
    obtain ⟨p, hp, hdp⟩ := hfrom hla
    obtain ⟨q, hq, hdq⟩ := hfrom hlb
    subst hdp; subst hdq
    by_cases hpq : p = q
    · subst hpq
      exact Or.inl ⟨rfl, rfl, rfl, rfl⟩
    · have hdisj := List.Pairwise.forall
        (fun _ _ h => PRect.disjoint_symm h) hpair hp hq hpq
      rcases hdisj with h1 | h1 | h1 | h1
      · exact Or.inr (Or.inl h1)
      · exact Or.inr (Or.inr (Or.inl h1))
      · exact Or.inr (Or.inr (Or.inr (Or.inl h1)))
      · exact Or.inr (Or.inr (Or.inr (Or.inr h1)))
  · intro n d hl
    obtain ⟨p, hp, hdp⟩ := hfrom hl
    subst hdp
    constructor
    · exact max?_ge_of_mem hw (List.mem_map.mpr ⟨p, hp, rfl⟩)
    · exact max?_ge_of_mem hh (List.mem_map.mpr ⟨p, hp, rfl⟩)

/-- Witness for the amended C1 at the concrete one-sprite input `exS1`. -/
theorem index_rects_equal_or_disjoint_witness :
    (∀ na da nb db, lookupKey na exSheet1.index = some da →
      lookupKey nb exSheet1.index = some db →
      (da.x = db.x ∧ da.y = db.y ∧ da.width = db.width ∧ da.height = db.height) ∨
      da.x + da.width ≤ db.x ∨ db.x + db.width ≤ da.x ∨
      da.y + da.height ≤ db.y ∨ db.y + db.height ≤ da.y) ∧
    (∀ n d, lookupKey n exSheet1.index = some d →
      d.x + d.width ≤ exSheet1.sheet.width ∧ d.y + d.height ≤ exSheet1.sheet.height) :=
  index_rects_equal_or_disjoint exS1 [] false exSheet1 (by decide)

/-- The spritesheet built from `exS2` after deduplication: the alias `"b"`
repeats the canonical `"a"` entry. -/
def exSheetAB : Spritesheet :=
  ⟨⟨1, 1, [⟨0, 0, 0, 0⟩]⟩, [("a", exDescA), ("b", exDescA)]⟩

/-- Counterexample to C1 as frozen: with deduplication, the two byte-identical
input sprites named `a` and `b` produce a successful build whose index records
two rectangles (one per name) that fully overlap — the alias entry duplicates
the canonical placement, so "the placement rectangles recorded in the index"
are not pairwise non-overlapping when read across all index entries. -/
theorem index_rects_overlap_counterexample :
    (SpritesheetBuilder.make_unique ⟨some exS2, none, false⟩).generate =
      some exSheetAB ∧
    lookupKey "a" exSheetAB.index = some exDescA ∧
    lookupKey "b" exSheetAB.index = some exDescA ∧
    "a" ≠ "b" ∧
    exDescA.x < exDescA.x + exDescA.width ∧
    exDescA.y < exDescA.y + exDescA.height := by
  refine ⟨by decide, by decide, by decide, by decide, by decide, by decide⟩

/-- C2: with deduplication enabled, for two input sprites with byte-identical
encoded pixels — `(n1, s1)` occurring before `(n2, s2)` in the (key-ordered)
input, with `n1` the first name carrying that fingerprint — the deduplicated
map keeps exactly the canonical first occurrence `n1` (and drops `n2`), `n2`
is recorded as an alias of `n1`, and in any spritesheet generated from the
deduplicated map the index entry of `n2` is identical (all fields: width,
height, x, y, pixelRatio, content, stretchX, stretchY, sdf) to that of `n1`. -/
theorem make_unique_dedup (sprites : List (String × Sprite)) (sdf : Bool)
    (l1 l2 l3 : List (String × Sprite)) (n1 n2 : String) (s1 s2 : Sprite)
    (hnd : (sprites.map Prod.fst).Nodup)
    (hsplit : sprites = l1 ++ (n1, s1) :: (l2 ++ (n2, s2) :: l3))
    (hb : encodePng s2.pixmap = encodePng s1.pixmap)
    (hfirst : ∀ p ∈ l1, encodePng p.2.pixmap ≠ encodePng s1.pixmap) :
    lookupKey n1 (makeUniquePair sprites).1 = some s1 ∧
    lookupKey n2 (makeUniquePair sprites).1 = none ∧
    n2 ∈ multiGet (makeUniquePair sprites).2 n1 ∧
    ∀ sheet, Spritesheet.new (makeUniquePair sprites).1 (makeUniquePair sprites).2 sdf =
        some sheet →
      lookupKey n2 sheet.index = lookupKey n1 sheet.index ∧
      (lookupKey n1 sheet.index).isSome := by
  have hMU := @makeUniqueGo_canonical (encodePng s1.pixmap) n1 s1 rfl l1
    (l2 ++ (n2, s2) :: l3) [] rfl hfirst
  rw [← hsplit] at hMU
  have hmem1 : (n1, s1) ∈ (makeUniquePair sprites).1 := hMU.1
  have hmem2 : (n1, n2) ∈ (makeUniquePair sprites).2 :=
    hMU.2 n2 s2 (List.mem_append.mpr (Or.inr (List.mem_cons.mpr (Or.inl rfl)))) hb
  have hperm := makeUniqueGo_perm sprites []
  have hndall : ((makeUniquePair sprites).1.map Prod.fst ++
      (makeUniquePair sprites).2.map Prod.snd).Nodup :=
    hperm.nodup_iff.mpr hnd
  obtain ⟨hndU, hndR, hdisjUR⟩ := List.nodup_append.mp hndall
  have hn2refs : n2 ∈ (makeUniquePair sprites).2.map Prod.snd :=
    List.mem_map.mpr ⟨(n1, n2), hmem2, rfl⟩
  have hn2uniq : n2 ∉ (makeUniquePair sprites).1.map Prod.fst := by
    intro hmem
    exact hdisjUR hmem hn2refs
  refine ⟨lookupKey_of_mem_nodup hmem1 hndU, lookupKey_eq_none hn2uniq,
    multiGet_mem hmem2, ?_⟩
  intro sheet hnew
  obtain ⟨packed, hpack, hindex, _, _⟩ := new_some_elim hnew
  have hnames : packed.map (fun p => p.data.name) =
      (makeUniquePair sprites).1.map Prod.fst := packSprites_names hpack
  -- locate the packed item carrying the canonical sprite
  have hdatas := (pack_into_po2_spec hpack).2.1
  have hitem : (⟨n1, s1⟩ : PixmapItem) ∈ packed.map Placed.data := by
    rw [hdatas]
    have hmaps : (spriteItems (makeUniquePair sprites).1).map Prod.fst =
        (makeUniquePair sprites).1.map fun pr => (⟨pr.1, pr.2⟩ : PixmapItem) := by
      simp [spriteItems, List.map_map, Function.comp]
    rw [hmaps]
    exact List.mem_map.mpr ⟨(n1, s1), hmem1, rfl⟩
  obtain ⟨p, hp, hdata⟩ := List.mem_map.mp hitem
  have hpname : p.data.name = n1 := by rw [hdata]
  have hpsprite : p.data.sprite = s1 := by rw [hdata]
  obtain ⟨u1, u2, hdecomp⟩ := List.append_of_mem hp
  have hnd2 : (packed.map fun p => p.data.name).Nodup := by
    rw [hnames]; exact hndU
  have hnotin2 : p.data.name ∉ u2.map fun q => q.data.name := by
    rw [hdecomp] at hnd2
    simp only [List.map_append, List.map_cons] at hnd2
    exact (List.nodup_cons.mp (List.nodup_append.mp hnd2).2.1).1
  have hn1uniqKeys : n1 ∈ (makeUniquePair sprites).1.map Prod.fst :=
    List.mem_map.mpr ⟨(n1, s1), hmem1, rfl⟩
  -- neither n1 nor n2 is touched by the items packed after p
  have hnot1 : p.data.name ∉ touchedNames (makeUniquePair sprites).2 u2 := by
    intro hmem
    rcases List.mem_flatMap.mp hmem with ⟨q, hq, hin⟩
    rcases List.mem_cons.mp hin with hEq | halias
    · exact hnotin2 (hEq ▸ List.mem_map.mpr ⟨q, hq, rfl⟩)
    · have := multiGet_subset_snd halias
      exact hdisjUR (hpname ▸ hn1uniqKeys) (hpname ▸ this)
  have hnot2 : n2 ∉ touchedNames (makeUniquePair sprites).2 u2 := by
    intro hmem
    rcases List.mem_flatMap.mp hmem with ⟨q, hq, hin⟩
    rcases List.mem_cons.mp hin with hEq | halias
    · -- n2 would be a canonical name
      have : n2 ∈ packed.map fun p => p.data.name := by
        rw [hdecomp]
        simp only [List.map_append, List.map_cons]
        exact List.mem_append.mpr (Or.inr (List.mem_cons.mpr
          (Or.inr (hEq ▸ List.mem_map.mpr ⟨q, hq, rfl⟩))))
      rw [hnames] at this
      exact hn2uniq this
    · -- n2 would be an alias of a later canonical name
      have hqpair := multiGet_pair_mem halias
      have : (q.data.name, n2) = (n1, n2) :=
        List.inj_on_of_nodup_map hndR hqpair hmem2 rfl
      have hqn1 : q.data.name = n1 := by injection this
      refine hnotin2 ?_
      rw [hpname, ← hqn1]
      exact List.mem_map.mpr ⟨q, hq, rfl⟩
  have hl1 : lookupKey p.data.name sheet.index =
      some (SpriteDescription.new p.rect p.data.sprite sdf) := by
    rw [hindex, hdecomp]
    exact buildIndexGo_lookup (makeUniquePair sprites).2 sdf (Or.inl rfl) u1 u2 [] hnot1
  have hl2 : lookupKey n2 sheet.index =
      some (SpriteDescription.new p.rect p.data.sprite sdf) := by
    rw [hindex, hdecomp]
    refine buildIndexGo_lookup (makeUniquePair sprites).2 sdf (Or.inr ?_) u1 u2 [] hnot2
    rw [hpname]
    exact multiGet_mem hmem2
  rw [hpname] at hl1
  rw [hl1, hl2]
  exact ⟨rfl, rfl⟩

/-- Witness for C2: the two byte-identical sprites of `exS2` collapse to the
canonical `"a"` with alias `"b"`, whose index entries coincide. -/
theorem make_unique_dedup_witness :
    lookupKey "a" (makeUniquePair exS2).1 = some exSpriteA ∧
    lookupKey "b" (makeUniquePair exS2).1 = none ∧
    "b" ∈ multiGet (makeUniquePair exS2).2 "a" ∧
    lookupKey "b" exSheetAB.index = lookupKey "a" exSheetAB.index ∧
    (lookupKey "a" exSheetAB.index).isSome := by
  have h := make_unique_dedup exS2 false [] [] [] "a" "b" exSpriteA exSpriteA
    (by decide) rfl rfl (by simp)
  have h4 := h.2.2.2 exSheetAB (by decide)
  exact ⟨h.1, h.2.1, h.2.2.1, h4.1, h4.2⟩

end Spreet
